import Mathlib

/-!
# mDNS client (`mdns.c`): wire-format codec and retry machine

A shallow embedding of `Internet/mDNS/mdns.c` of the WIZnet ioLibrary driver
as shipped in `rotary_dial_remote`.

Conventions of the embedding

* Memory is a total function `Nat → Nat`; the cell at offset `i` from the
  start of the message buffer holds the byte `msg i % 256` (`rd`).  A C
  pointer into the message is the offset from `msg`.
* C strings are lists of byte values without the closing NUL.
* `int16_t` values are integers brought into range by `wrap16`,
  `uint8_t`, `uint16_t` and `uint32_t` values are naturals reduced
  modulo `2^8`, `2^16`, `2^32`.
* The constants of the absent header `mdns.h` (`MAX_DOMAIN_NAME`,
  `MDNS_WAIT_TIME`, `MAX_MDNS_RETRY`, `MAX_MDNS_BUF_SIZE`) are parameters.
-/

namespace MDNS

/-! ## Machine integers and memory -/

/-- Conversion of an integer to `int16_t` (two's complement). -/
def wrap16 (x : Int) : Int := (x + 32768) % 65536 - 32768

/-- The byte stored at offset `i` of the memory `msg` (a `uint8_t`). -/
def rd (msg : Nat → Nat) (i : Nat) : Nat := msg i % 256

/-- The memory whose first cells are the bytes of `bs` (zero elsewhere). -/
def ofBytes (bs : List Nat) : Nat → Nat := fun i => bs.getD i 0

/-- The `n` bytes of `msg` starting at offset `p`. -/
def bytesAt (msg : Nat → Nat) (p n : Nat) : List Nat :=
  (List.range n).map (fun i => rd msg (p + i))

/-- The function `get16`: a big-endian `uint16_t` read at offset `s`. -/
def get16 (msg : Nat → Nat) (s : Nat) : Nat :=
  ((rd msg s <<< 8) % 65536 + rd msg (s + 1)) % 65536

/-- The function `put16`: the two bytes that `put16` stores for the `uint16_t` `i`. -/
def put16 (i : Nat) : List Nat := [(i >>> 8) % 256, i % 256]

/-- The macro `MAXCNAME = MAX_DOMAIN_NAME + (MAX_DOMAIN_NAME >> 1)`. -/
def MAXCNAME (MAX_DOMAIN_NAME : Nat) : Nat := MAX_DOMAIN_NAME + (MAX_DOMAIN_NAME >>> 1)

/-! ## `parse_name` -/

/-- The two exits of `parse_name` after the loop: the root dot when no segment
was read, the closing NUL, and the value `clen`. -/
def parse_name_finish (clen : Int) (nseg : Nat) (buf : List Nat) : Int × List Nat :=
  (clen, (if nseg = 0 then buf ++ [46] else buf) ++ [0])

/-- The `for (;;)` loop of `parse_name`, one iteration per unit of fuel.
`cp` is the read cursor, `len` the remaining output budget (`int16_t`),
`clen` the consumed length, `indirect` the indirection flag, `nseg` the
number of segments and `buf` the bytes written to the output so far.
The result is the returned `int` and the bytes written. -/
def parse_name_loop (msg : Nat → Nat) :
    Nat → Nat → Int → Int → Bool → Nat → List Nat → Option (Int × List Nat)
  | 0, _, _, _, _, _, _ => none
  | fuel + 1, cp, len, clen, indirect, nseg, buf =>
    -- slen = *cp++;  if (!indirect) clen++;
    let slen0 := rd msg cp
    let cp1 := cp + 1
    let clen1 := if indirect then clen else clen + 1
    -- if ((slen & 0xc0) == 0xc0) follow the indirection, once
    let isPtr := (slen0 &&& 0xc0) = 0xc0
    let clen2 := if isPtr then (if indirect then clen1 else clen1 + 1) else clen1
    let indirect2 := if isPtr then true else indirect
    let tgt := ((slen0 &&& 0x3f) <<< 8) + rd msg cp1
    let slen := if isPtr then rd msg tgt else slen0
    let cp2 := if isPtr then tgt + 1 else cp1
    if slen = 0 then
      some (parse_name_finish clen2 nseg buf)
    else
      -- len -= slen + 1;  if (len < 0) return -1;
      let len2 := wrap16 (len - ((slen : Int) + 1))
      if len2 < 0 then
        some (-1, buf)
      else
        let clen3 := if indirect2 then clen2 else clen2 + (slen : Int)
        parse_name_loop msg fuel (cp2 + slen) len2 clen3 indirect2 (nseg + 1)
          (buf ++ bytesAt msg cp2 slen ++ [46])

/-- The function `parse_name(msg, compressed, buf, len)`: the returned `int` and the
bytes written to `buf`.  The argument is converted to the `int16_t`
parameter; 16385 iterations can not be exhausted by a 16-bit budget
(`parse_name_loop_isSome`), so the default is never taken. -/
def parse_name (msg : Nat → Nat) (compressed : Nat) (len : Int) : Int × List Nat :=
  (parse_name_loop msg 16385 compressed (wrap16 len) 0 false 0 []).getD (-1, [])

/-- The C string held by a buffer: the bytes before the first NUL. -/
def cstr (buf : List Nat) : List Nat := buf.takeWhile (fun b => b != 0)

/-! ## Question and answer records -/

/-- The function `mdns_question(msg, cp)`: the pointer to the next record, `none` for the
null pointer returned when the name does not fit `MAXCNAME`. -/
def mdns_question (D : Nat) (msg : Nat → Nat) (cp : Nat) : Option Nat :=
  let len := (parse_name msg cp (MAXCNAME D)).1
  if len = -1 then none
  else some (cp + len.toNat + 2 + 2)

/-- The embedded-name step shared by several record types: decode a name at
`cp` and advance past it, `none` for the null pointer. -/
def skip_name (D : Nat) (msg : Nat → Nat) (cp : Nat) : Option Nat :=
  let len := (parse_name msg cp (MAXCNAME D)).1
  if len = -1 then none else some (cp + len.toNat)

/-- The `switch (type)` of `mdns_answer`, entered with `cp` behind the
fixed fields: the next-record pointer (or null) and the address cells. -/
def mdns_answer_rdata (D : Nat) (msg : Nat → Nat) (type : Nat) (cp : Nat)
    (ip_from_mdns : List Nat) : Option Nat × List Nat :=
  if type = 1 then
    -- TYPE_A
    (some (cp + 4), [rd msg cp, rd msg (cp + 1), rd msg (cp + 2), rd msg (cp + 3)])
  else if type = 5 ∨ type = 7 ∨ type = 8 ∨ type = 9 ∨ type = 2 ∨ type = 12 then
    -- TYPE_CNAME, TYPE_MB, TYPE_MG, TYPE_MR, TYPE_NS, TYPE_PTR
    (skip_name D msg cp, ip_from_mdns)
  else if type = 13 then
    -- TYPE_HINFO
    let cpa := cp + 1 + rd msg cp
    (some (cpa + 1 + rd msg cpa), ip_from_mdns)
  else if type = 15 then
    -- TYPE_MX
    (skip_name D msg (cp + 2), ip_from_mdns)
  else if type = 6 then
    -- TYPE_SOA
    match skip_name D msg cp with
    | none => (none, ip_from_mdns)
    | some cpa =>
      match skip_name D msg cpa with
      | none => (none, ip_from_mdns)
      | some cpb => (some (cpb + 4 + 4 + 4 + 4 + 4), ip_from_mdns)
  else
    -- TYPE_TXT and default
    (some cp, ip_from_mdns)

/-- The function `mdns_answer(msg, cp, ip_from_mdns)`: the pointer to the next record
(`none` for null) and the contents of the four address cells afterwards. -/
def mdns_answer (D : Nat) (msg : Nat → Nat) (cp : Nat) (ip_from_mdns : List Nat) :
    Option Nat × List Nat :=
  let len := (parse_name msg cp (MAXCNAME D)).1
  if len = -1 then (none, ip_from_mdns)
  else
    let cp1 := cp + len.toNat
    let type := get16 msg cp1
    mdns_answer_rdata D msg type (cp1 + 2 + 2 + 4 + 2) ip_from_mdns

/-! ## `parseMDNSMSG` -/

/-- The header `struct dhdr`. -/
structure dhdr where
  id : Nat
  qr : Nat
  opcode : Nat
  aa : Nat
  tc : Nat
  rd : Nat
  ra : Nat
  rcode : Nat
  qdcount : Nat
  ancount : Nat
  nscount : Nat
  arcount : Nat
  deriving DecidableEq, Repr

/-- The header decoding at the start of `parseMDNSMSG`. -/
def parse_header (msg : Nat → Nat) : dhdr :=
  let tmp := get16 msg 2
  { id := get16 msg 0
    qr := if tmp &&& 0x8000 ≠ 0 then 1 else 0
    opcode := (tmp >>> 11) &&& 0xf
    aa := if tmp &&& 0x0400 ≠ 0 then 1 else 0
    tc := if tmp &&& 0x0200 ≠ 0 then 1 else 0
    rd := if tmp &&& 0x0100 ≠ 0 then 1 else 0
    ra := if tmp &&& 0x0080 ≠ 0 then 1 else 0
    rcode := tmp &&& 0xf
    qdcount := get16 msg 4
    ancount := get16 msg 6
    nscount := get16 msg 8
    arcount := get16 msg 10 }

/-- The question loop of `parseMDNSMSG`: `n` calls of `mdns_question`,
stopped by the first null pointer. -/
def question_loop (D : Nat) (msg : Nat → Nat) : Nat → Nat → Option Nat
  | 0, cp => some cp
  | n + 1, cp =>
    match mdns_question D msg cp with
    | none => none
    | some cpa => question_loop D msg n cpa

/-- The answer loop of `parseMDNSMSG`: `n` calls of `mdns_answer`, stopped
by the first null pointer. -/
def answer_loop (D : Nat) (msg : Nat → Nat) : Nat → Nat → List Nat → Option Nat × List Nat
  | 0, cp, ip => (some cp, ip)
  | n + 1, cp, ip =>
    match mdns_answer D msg cp ip with
    | (none, ipa) => (none, ipa)
    | (some cpa, ipa) => answer_loop D msg n cpa ipa

/-- The function `parseMDNSMSG(pdhdr, pbuf, ip_from_mdns)`: the returned `int8_t`, the
header written to `*pdhdr` and the address cells afterwards. -/
def parseMDNSMSG (D : Nat) (msg : Nat → Nat) (ip_from_mdns : List Nat) :
    Int × dhdr × List Nat :=
  let h := parse_header msg
  match question_loop D msg h.qdcount 12 with
  | none => (-1, h, ip_from_mdns)
  | some cp =>
    match answer_loop D msg h.ancount cp ip_from_mdns with
    | (none, ip) => (-1, h, ip)
    | (some _, ip) => (if h.rcode = 0 then 1 else 0, h, ip)

/-! ## `mdns_makequery` -/

/-- The function `strchr(s, c)` for `c ≠ 0`: the offset of the first `c`, `none` for null. -/
def strchr : List Nat → Nat → Option Nat
  | [], _ => none
  | b :: s, c => if b = c then some 0 else (strchr s c).map (fun i => i + 1)

/-- The `n` bytes stored by `strncpy(dst, s, n)`: the string, padded with NUL. -/
def strncpy (s : List Nat) (n : Nat) : List Nat :=
  s.take n ++ List.replicate (n - s.length) 0

/-- The `for (;;)` loop of `mdns_makequery`, one iteration per unit of fuel:
`dname` is the rest of the name, `dlen` its `uint16_t` length and `out` the
bytes written so far. -/
def makequery_loop : Nat → List Nat → Nat → List Nat → Option (List Nat)
  | 0, _, _, _ => none
  | fuel + 1, dname, dlen, out =>
    let cp1 := strchr dname 46
    let len := match cp1 with
      | some i => i % 65536
      | none => dlen
    let out1 := out ++ [len % 256]
    if len = 0 then some out1
    else
      let out2 := out1 ++ strncpy dname len
      match cp1 with
      | none => some (out2 ++ [0])
      | some _ =>
        makequery_loop fuel (dname.drop (len + 1))
          ((dlen + 65536 - (len + 1) % 65536) % 65536) out2

/-- The six `put16` calls that open `mdns_makequery`. -/
def query_header : List Nat :=
  put16 0 ++ put16 0 ++ put16 1 ++ put16 0 ++ put16 0 ++ put16 0

/-- The function `mdns_makequery(name, buf, len)`: the returned `int16_t` and the bytes
written to `buf`.  `strcpy` stops at the first NUL of `name`; one iteration
per byte of the name and one more always suffice
(`makequery_loop_isSome`), so the default is never taken. -/
def mdns_makequery (name : List Nat) : Int × List Nat :=
  let sname := cstr name
  let body := (makequery_loop (sname.length + 1) sname (sname.length % 65536)
    query_header).getD []
  let out := body ++ put16 0x0001 ++ put16 0x8001
  (wrap16 ((out.length % 4294967296 : Nat) : Int), out)

/-! ## Timeout check and the session -/

/-- The function `check_MDNS_timeout()` on the globals `mdns_1s_tick` (`uint32_t`) and
`retry_count` (`uint8_t`): the returned value and the two globals afterwards. -/
def check_MDNS_timeout (MDNS_WAIT_TIME MAX_MDNS_RETRY : Nat) (mdns_1s_tick retry_count : Nat) :
    Int × Nat × Nat :=
  if mdns_1s_tick ≥ MDNS_WAIT_TIME then
    if retry_count ≥ MAX_MDNS_RETRY then (-1, 0, 0)
    else (0, 0, (retry_count + 1) % 256)
  else (1, mdns_1s_tick, retry_count)

/-- The constants of `mdns.h` and the socket number given to `MDNS_init`. -/
structure Config where
  MAX_DOMAIN_NAME : Nat
  MDNS_WAIT_TIME : Nat
  MAX_MDNS_RETRY : Nat
  MAX_MDNS_BUF_SIZE : Nat
  MDNS_PORT : Nat
  MDNS_SOCKET : Nat

/-- The calls that `MDNS_run` makes to the socket layer, with the arguments
that matter: `sendto` carries the `len` bytes found at `pMDNSMSG`, the
destination address and the port. -/
inductive Call
  | socket
  | sendto (data : List Nat) (len : Nat) (ip : List Nat) (port : Nat)
  | recvfrom (len : Nat)
  | close
  deriving DecidableEq, Repr

/-- Whether a call is a `sendto`. -/
def Call.isSend : Call → Bool
  | Call.sendto _ _ _ _ => true
  | _ => false

/-- The state of one `MDNS_run`: the globals `retry_count`, `mdns_1s_tick`
and the buffer behind `pMDNSMSG`, the local `len`, the caller's address
cells, the socket calls made so far and the returned value once
`MDNS_run` has returned. -/
structure Session where
  retry_count : Nat
  mdns_1s_tick : Nat
  len : Nat
  pMDNSMSG : Nat → Nat
  ip_from_mdns : List Nat
  calls : List Call
  ret : Option Int

/-- What is seen from outside between two steps of the session: a timer
interrupt (`MDNS_time_handler`), or one pass through the body of the
`while (1)` loop during which `getSn_RX_RSR` reports `rsr` and `recvfrom`,
if called, delivers `dgram`. -/
inductive Event
  | tick
  | poll (rsr : Nat) (dgram : List Nat)

/-- The memory after the bytes `bs` are stored at its start. -/
def store (mem : Nat → Nat) (bs : List Nat) : Nat → Nat :=
  fun i => if i < bs.length then bs.getD i 0 else mem i

/-- The multicast group address `224.0.0.251` set up by `MDNS_run`. -/
def mdns_ip : List Nat := [224, 0, 0, 251]

/-- The function `MDNS_run` from its entry to the `while (1)` loop: `socket_ret` and
`send_ret` are what `socket` and the first `sendto` return. -/
def MDNS_run_start (cfg : Config) (name : List Nat) (mem : Nat → Nat) (ip_from_mdns : List Nat)
    (socket_ret send_ret : Int) : Session :=
  let s0 : Session :=
    { retry_count := 0, mdns_1s_tick := 0, len := 0, pMDNSMSG := mem,
      ip_from_mdns := ip_from_mdns, calls := [Call.socket], ret := none }
  if socket_ret ≠ (cfg.MDNS_SOCKET : Int) then
    { s0 with ret := some socket_ret }
  else
    let q := mdns_makequery name
    let len := (q.1 % 65536).toNat
    let mem1 := store mem q.2
    let s1 : Session :=
      { s0 with
        len := len, pMDNSMSG := mem1,
        calls := s0.calls ++ [Call.sendto (bytesAt mem1 0 len) len mdns_ip cfg.MDNS_PORT] }
    if send_ret ≠ (len : Int) then { s1 with ret := some send_ret } else s1

/-- One pass through the body of the `while (1)` loop of `MDNS_run`. -/
def MDNS_run_poll (cfg : Config) (s : Session) (rsr : Nat) (dgram : List Nat) : Session :=
  -- if ((len = getSn_RX_RSR(MDNS_SOCKET)) > 0)
  let len := rsr % 65536
  if len > 0 then
    let len1 := if len > cfg.MAX_MDNS_BUF_SIZE then cfg.MAX_MDNS_BUF_SIZE else len
    let data := dgram.take len1
    let mem1 := store s.pMDNSMSG data
    let r := parseMDNSMSG cfg.MAX_DOMAIN_NAME mem1 s.ip_from_mdns
    { s with
      len := data.length % 65536, pMDNSMSG := mem1, ip_from_mdns := r.2.2,
      calls := s.calls ++ [Call.recvfrom len1, Call.close], ret := some r.1 }
  else
    let c := check_MDNS_timeout cfg.MDNS_WAIT_TIME cfg.MAX_MDNS_RETRY s.mdns_1s_tick s.retry_count
    let s1 : Session := { s with len := len, mdns_1s_tick := c.2.1, retry_count := c.2.2 }
    if c.1 < 0 then
      { s1 with calls := s1.calls ++ [Call.close], ret := some 0 }
    else if c.1 = 0 then
      { s1 with
        calls := s1.calls ++ [Call.sendto (bytesAt s1.pMDNSMSG 0 len) len mdns_ip cfg.MDNS_PORT] }
    else s1

/-- One step of the session: `MDNS_time_handler` increments the tick
counter; a pass of the loop happens only while `MDNS_run` has not returned. -/
def step (cfg : Config) (s : Session) : Event → Session
  | Event.tick => { s with mdns_1s_tick := (s.mdns_1s_tick + 1) % 4294967296 }
  | Event.poll rsr dgram =>
    match s.ret with
    | some _ => s
    | none => MDNS_run_poll cfg s rsr dgram

/-- The session after a sequence of events. -/
def run (cfg : Config) (s : Session) (es : List Event) : Session :=
  es.foldl (step cfg) s

/-- The event sequence "a tick, then a pass of the loop that finds nothing
to receive", `n` times. -/
def silent_ticks : Nat → List Event
  | 0 => []
  | n + 1 => Event.tick :: Event.poll 0 [] :: silent_ticks n

/-- The number of `sendto` calls made so far. -/
def sends (s : Session) : Nat := (s.calls.filter Call.isSend).length

/-! ## Specification-side definitions -/

/-- A dotted name: the labels joined by single dots. -/
def dotted : List (List Nat) → List Nat
  | [] => []
  | [l] => l
  | l :: m :: ls => l ++ 46 :: dotted (m :: ls)

/-- The name as length-prefixed labels closed by one zero byte. -/
def encode_labels : List (List Nat) → List Nat
  | [] => [0]
  | l :: ls => l.length :: l ++ encode_labels ls

/-- A label of 1 to 63 bytes, none of them NUL or a dot. -/
def valid_label (l : List Nat) : Prop :=
  1 ≤ l.length ∧ l.length ≤ 63 ∧ ∀ b ∈ l, 0 < b ∧ b < 256 ∧ b ≠ 46

instance (l : List Nat) : Decidable (valid_label l) := by
  unfold valid_label; infer_instance

/-- Whether the segment starting at `cp` opens with a pointer byte. -/
def seg_ptr (msg : Nat → Nat) (cp : Nat) : Bool :=
  decide ((rd msg cp &&& 0xc0) = 0xc0)

/-- The 14-bit target of the pointer at `cp`. -/
def seg_target (msg : Nat → Nat) (cp : Nat) : Nat :=
  ((rd msg cp &&& 0x3f) <<< 8) + rd msg (cp + 1)

/-- The length byte of the segment read at `cp`: the byte at the pointer's
target when `cp` holds a pointer, the byte at `cp` otherwise. -/
def seg_len (msg : Nat → Nat) (cp : Nat) : Nat :=
  if seg_ptr msg cp then rd msg (seg_target msg cp) else rd msg cp

/-- The offset of the first data byte of the segment read at `cp`. -/
def seg_data (msg : Nat → Nat) (cp : Nat) : Nat :=
  if seg_ptr msg cp then seg_target msg cp + 1 else cp + 1

/-- The lengths of the first `n` segments that `parse_name` reads from
offset `cp` on, a pointer being followed where a segment starts with one. -/
def segments (msg : Nat → Nat) : Nat → Nat → List Nat
  | 0, _ => []
  | n + 1, cp =>
    if seg_len msg cp = 0 then []
    else seg_len msg cp :: segments msg n (seg_data msg cp + seg_len msg cp)

/-- The accumulated literal length of the first `n` segments, each counted
with its one-byte separator. -/
def literal_length (msg : Nat → Nat) (n cp : Nat) : Int :=
  (((segments msg n cp).map (fun s => s + 1)).sum : Nat)

/-- Whether some segment read from `cp` on brings the accumulated literal
length above `len`. -/
def over_length (msg : Nat → Nat) (cp : Nat) (len : Int) : Prop :=
  ∃ n, len < literal_length msg n cp

/-- The offsets at which the answer loop, run for `n` records from `cp`,
starts a record, in message order. -/
def answer_starts (D : Nat) (msg : Nat → Nat) : Nat → Nat → List Nat
  | 0, _ => []
  | n + 1, cp =>
    cp :: match (mdns_answer D msg cp []).1 with
      | none => []
      | some cpa => answer_starts D msg n cpa

/-- The type field of the answer record starting at `c`. -/
def record_type (D : Nat) (msg : Nat → Nat) (c : Nat) : Nat :=
  get16 msg (c + (parse_name msg c (MAXCNAME D)).1.toNat)

/-- The four bytes behind the fixed fields of the record starting at `c`. -/
def record_payload (D : Nat) (msg : Nat → Nat) (c : Nat) : List Nat :=
  bytesAt msg (c + (parse_name msg c (MAXCNAME D)).1.toNat + 10) 4

/-- The payloads of the A-type records among the first `n` answers. -/
def a_payloads (D : Nat) (msg : Nat → Nat) (n cp : Nat) : List (List Nat) :=
  ((answer_starts D msg n cp).filter (fun c => record_type D msg c = 1)).map
    (record_payload D msg)

/-- The payloads of the A-type answers of a reply, in message order: the
answer section starts where the question loop ends. -/
def reply_a_payloads (D : Nat) (msg : Nat → Nat) : List (List Nat) :=
  match question_loop D msg (get16 msg 4) 12 with
  | none => []
  | some cp => a_payloads D msg (get16 msg 6) cp

/-- A reply with one A answer for `www.example.com`, address `192.168.1.7`. -/
def reply_www : List Nat :=
  [0, 0, 0x84, 0, 0, 0, 0, 1, 0, 0, 0, 0,
   3, 119, 119, 119, 7, 101, 120, 97, 109, 112, 108, 101, 3, 99, 111, 109, 0,
   0, 1, 0, 1, 0, 0, 0, 120, 0, 4, 192, 168, 1, 7]

/-- The reply `reply_www` with the response code set to 3 (name error). -/
def reply_nxdomain : List Nat :=
  [0, 0, 0x84, 3, 0, 0, 0, 1, 0, 0, 0, 0,
   3, 119, 119, 119, 7, 101, 120, 97, 109, 112, 108, 101, 3, 99, 111, 109, 0,
   0, 1, 0, 1, 0, 0, 0, 120, 0, 4, 192, 168, 1, 7]

/-- A reply with two A answers for the root name, `10.0.0.1` then `10.0.0.2`. -/
def reply_two_a : List Nat :=
  [0, 0, 0x84, 0, 0, 0, 0, 2, 0, 0, 0, 0,
   0, 0, 1, 0, 1, 0, 0, 0, 0, 0, 4, 10, 0, 0, 1,
   0, 0, 1, 0, 1, 0, 0, 0, 0, 0, 4, 10, 0, 0, 2]

/-- A reply that is a bare header: response, no error, all counts zero. -/
def reply_empty : List Nat := [0, 0, 0x84, 0, 0, 0, 0, 0, 0, 0, 0, 0]

/-- The name `local`. -/
def name_local : List Nat := [0x6c, 0x6f, 0x63, 0x61, 0x6c]

/-- A configuration: 16-byte domain names, resend after one tick, one retry. -/
def cfg_small : Config :=
  { MAX_DOMAIN_NAME := 16, MDNS_WAIT_TIME := 1, MAX_MDNS_RETRY := 1,
    MAX_MDNS_BUF_SIZE := 512, MDNS_PORT := 5353, MDNS_SOCKET := 0 }

/-- A session of `cfg_small` waiting for the reply to its query for `local`. -/
def session_local : Session :=
  MDNS_run_start cfg_small name_local (fun _ => 0) [0, 0, 0, 0] 0 23

/-- The memory `msg` holds the bytes `bs` from offset `p` on. -/
def region (msg : Nat → Nat) (p : Nat) (bs : List Nat) : Prop :=
  ∀ i, i < bs.length → rd msg (p + i) = bs.getD i 0

/-- The labels, each followed by a dot. -/
def labels_out : List (List Nat) → List Nat
  | [] => []
  | l :: ls => l ++ 46 :: labels_out ls

/-- A message in which the pointer at offset 7 points at offset 5, where the
name is itself the pointer to the name `abc` at offset 0. -/
def msg_chain : List Nat := [3, 97, 98, 99, 0, 0xc0, 0, 0xc0, 5]

/-- A configuration whose retry maximum, 256, is beyond the `uint8_t`
counter: resend after one tick. -/
def cfg_retry256 : Config :=
  { MAX_DOMAIN_NAME := 16, MDNS_WAIT_TIME := 1, MAX_MDNS_RETRY := 256,
    MAX_MDNS_BUF_SIZE := 512, MDNS_PORT := 5353, MDNS_SOCKET := 0 }

/-- A configuration whose wait threshold, `2^32`, is beyond the `uint32_t`
tick counter: no retry. -/
def cfg_wait_2_32 : Config :=
  { MAX_DOMAIN_NAME := 16, MDNS_WAIT_TIME := 4294967296, MAX_MDNS_RETRY := 0,
    MAX_MDNS_BUF_SIZE := 512, MDNS_PORT := 5353, MDNS_SOCKET := 0 }

/-- A configuration with a wait threshold of 2000 ticks and 3 retries. -/
def cfg_2000_3 : Config :=
  { MAX_DOMAIN_NAME := 16, MDNS_WAIT_TIME := 2000, MAX_MDNS_RETRY := 3,
    MAX_MDNS_BUF_SIZE := 512, MDNS_PORT := 5353, MDNS_SOCKET := 0 }

/-- The session that `MDNS_run` starts for `local` when `socket` and the
first `sendto` succeed. -/
def start_local (cfg : Config) : Session :=
  MDNS_run_start cfg name_local (fun _ => 0) [0, 0, 0, 0] (cfg.MDNS_SOCKET : Int) 23

/-- A message whose name loops: the label `a` at offset 0 is followed by a
pointer back to offset 0. -/
def msg_cycle : List Nat := [1, 97, 0xc0, 0]

/-- The session of `cfg_small` whose `socket` call succeeds and whose first
`sendto` returns the error value `-1`. -/
def session_send_failed : Session :=
  MDNS_run_start cfg_small name_local (fun _ => 0) [0, 0, 0, 0] 0 (-1)

/-- The offsets at which the question loop, run for `n` records from `cp`,
starts a record, in message order, up to the first record that fails. -/
def question_starts (D : Nat) (msg : Nat → Nat) : Nat → Nat → List Nat
  | 0, _ => []
  | n + 1, cp =>
    cp :: match mdns_question D msg cp with
      | none => []
      | some cpa => question_starts D msg n cpa

/-- The consumed length of the name at `c`, `none` when it does not decode. -/
def name_len (D : Nat) (msg : Nat → Nat) (c : Nat) : Option Nat :=
  if (parse_name msg c (MAXCNAME D)).1 = -1 then none
  else some (parse_name msg c (MAXCNAME D)).1.toNat

/-- The number of payload bytes that an answer of type `t`, other than A,
is skipped by, for the payload at `c`: one embedded name for CNAME, NS,
PTR, MB, MG, MR; two length-prefixed strings for HINFO; two bytes and an
embedded name for MX; two embedded names and 20 bytes for SOA; nothing
for TXT and every other type.  `none` when an embedded name does not decode. -/
def rdata_skip (D : Nat) (msg : Nat → Nat) (t c : Nat) : Option Nat :=
  if t = 5 ∨ t = 2 ∨ t = 12 ∨ t = 7 ∨ t = 8 ∨ t = 9 then name_len D msg c
  else if t = 13 then some (2 + rd msg c + rd msg (c + 1 + rd msg c))
  else if t = 15 then (name_len D msg (c + 2)).map (fun a => 2 + a)
  else if t = 6 then
    match name_len D msg c with
    | none => none
    | some a => (name_len D msg (c + a)).map (fun b => a + b + 20)
  else some 0

/-- A reply with one CNAME answer: owner `abc`, target a pointer to it. -/
def reply_cname : List Nat :=
  [0, 0, 0x84, 0, 0, 0, 0, 1, 0, 0, 0, 0,
   3, 97, 98, 99, 0, 0, 5, 0, 1, 0, 0, 0, 120, 0, 2, 0xc0, 12]

/-- A component of a dotted name: at most 63 bytes, none of them NUL or a dot. -/
def valid_component (l : List Nat) : Prop :=
  l.length ≤ 63 ∧ ∀ b ∈ l, 0 < b ∧ b < 256 ∧ b ≠ 46

instance (l : List Nat) : Decidable (valid_component l) := by
  unfold valid_component; infer_instance

/-- The non-empty components of a name, in order. -/
def nonempty_components (cs : List (List Nat)) : List (List Nat) :=
  cs.filter (fun l => !l.isEmpty)

/-- The components of a name that come before its first empty component. -/
def leading_components (cs : List (List Nat)) : List (List Nat) :=
  cs.takeWhile (fun l => !l.isEmpty)

/-- One step of the session together with a count kept beside it: the
number of ticks since the last `sendto`, set back to zero by a pass of the
loop that sends. -/
def counted_step (cfg : Config) (p : Session × Nat) (e : Event) : Session × Nat :=
  match e with
  | Event.tick => (step cfg p.1 e, p.2 + 1)
  | Event.poll _ _ =>
    (step cfg p.1 e, if sends (step cfg p.1 e) = sends p.1 then p.2 else 0)

/-- The number of ticks among the events `es` since the last `sendto` (the
one before `es` when no pass of the loop in `es` sends). -/
def ticks_since_send (cfg : Config) (s : Session) (es : List Event) : Nat :=
  (es.foldl (counted_step cfg) (s, 0)).2

/-! ## Arithmetic of the machine integers -/

theorem wrap16_of_range (x : Int) (h0 : -32768 ≤ x) (h1 : x ≤ 32767) : wrap16 x = x := by
  unfold wrap16; omega

theorem wrap16_range (x : Int) : -32768 ≤ wrap16 x ∧ wrap16 x ≤ 32767 := by
  unfold wrap16; omega

theorem rd_lt (msg : Nat → Nat) (i : Nat) : rd msg i < 256 := by
  unfold rd; omega

theorem seg_len_lt (msg : Nat → Nat) (cp : Nat) : seg_len msg cp < 256 := by
  unfold seg_len; split <;> exact rd_lt _ _

/-! ## The loop of `parse_name` -/

/-- One iteration of the loop of `parse_name`, in terms of the segment read. -/
theorem parse_name_loop_succ (msg : Nat → Nat) (fuel cp : Nat) (len clen : Int) (ind : Bool)
    (nseg : Nat) (buf : List Nat) :
    parse_name_loop msg (fuel + 1) cp len clen ind nseg buf =
      if seg_len msg cp = 0 then
        some (parse_name_finish
          (if ind then clen else if seg_ptr msg cp then clen + 2 else clen + 1) nseg buf)
      else if wrap16 (len - ((seg_len msg cp : Int) + 1)) < 0 then some (-1, buf)
      else
        parse_name_loop msg fuel (seg_data msg cp + seg_len msg cp)
          (wrap16 (len - ((seg_len msg cp : Int) + 1)))
          (if ind then clen else if seg_ptr msg cp then clen + 2
            else clen + 1 + (seg_len msg cp : Int))
          (ind || seg_ptr msg cp) (nseg + 1)
          (buf ++ bytesAt msg (seg_data msg cp) (seg_len msg cp) ++ [46]) := by
  simp only [parse_name_loop, seg_len, seg_data, seg_ptr, seg_target]
  by_cases hp : (rd msg cp &&& 0xc0) = 0xc0 <;> cases ind <;>
    simp [hp, add_assoc]

theorem literal_length_zero (msg : Nat → Nat) (cp : Nat) : literal_length msg 0 cp = 0 := by
  simp [literal_length, segments]

theorem literal_length_nonneg (msg : Nat → Nat) (n cp : Nat) : 0 ≤ literal_length msg n cp := by
  unfold literal_length; omega

theorem literal_length_succ_of_end (msg : Nat → Nat) (n cp : Nat) (h : seg_len msg cp = 0) :
    literal_length msg (n + 1) cp = 0 := by
  simp [literal_length, segments, h]

theorem literal_length_succ (msg : Nat → Nat) (n cp : Nat) (h : seg_len msg cp ≠ 0) :
    literal_length msg (n + 1) cp =
      (seg_len msg cp : Int) + 1 + literal_length msg n (seg_data msg cp + seg_len msg cp) := by
  simp [literal_length, segments, h]

theorem over_length_of_end (msg : Nat → Nat) (cp : Nat) (len : Int) (h0 : 0 ≤ len)
    (h : seg_len msg cp = 0) : ¬ over_length msg cp len := by
  rintro ⟨n, hn⟩
  cases n with
  | zero => rw [literal_length_zero] at hn; omega
  | succ n => rw [literal_length_succ_of_end msg n cp h] at hn; omega

theorem over_length_step (msg : Nat → Nat) (cp : Nat) (len : Int) (h0 : 0 ≤ len)
    (h : seg_len msg cp ≠ 0) :
    over_length msg cp len ↔
      len - ((seg_len msg cp : Int) + 1) < 0 ∨
        over_length msg (seg_data msg cp + seg_len msg cp) (len - ((seg_len msg cp : Int) + 1)) := by
  constructor
  · rintro ⟨n, hn⟩
    cases n with
    | zero => rw [literal_length_zero] at hn; omega
    | succ n =>
      rw [literal_length_succ msg n cp h] at hn
      exact Or.inr ⟨n, by omega⟩
  · rintro (h1 | ⟨n, hn⟩)
    · refine ⟨1, ?_⟩
      rw [literal_length_succ msg 0 cp h, literal_length_zero]
      omega
    · refine ⟨n + 1, ?_⟩
      rw [literal_length_succ msg n cp h]
      omega

/-- With a budget in `0 .. 32767` and more than `len / 2` iterations the loop
of `parse_name` returns: `-1` when some segment brings the accumulated
literal length above the budget, a value that is not negative otherwise. -/
theorem parse_name_loop_spec (msg : Nat → Nat) :
    ∀ (fuel cp : Nat) (len clen : Int) (ind : Bool) (nseg : Nat) (buf : List Nat),
      0 ≤ len → len ≤ 32767 → len < 2 * (fuel : Int) → 0 ≤ clen →
      ∃ r, parse_name_loop msg fuel cp len clen ind nseg buf = some r ∧
        (over_length msg cp len → r.1 = -1) ∧ (¬ over_length msg cp len → 0 ≤ r.1) := by
  intro fuel
  induction fuel with
  | zero => intro cp len clen ind nseg buf h0 _ h2 _; omega
  | succ f ih =>
    intro cp len clen ind nseg buf h0 h1 h2 h3
    rw [parse_name_loop_succ]
    have hlt := seg_len_lt msg cp
    by_cases hs : seg_len msg cp = 0
    · rw [if_pos hs]
      refine ⟨_, rfl, ?_, ?_⟩
      · intro ho; exact absurd ho (over_length_of_end msg cp len h0 hs)
      · intro _
        simp only [parse_name_finish]
        split_ifs <;> omega
    · rw [if_neg hs]
      have hw : wrap16 (len - ((seg_len msg cp : Int) + 1)) = len - ((seg_len msg cp : Int) + 1) :=
        wrap16_of_range _ (by omega) (by omega)
      rw [hw]
      by_cases hneg : len - ((seg_len msg cp : Int) + 1) < 0
      · rw [if_pos hneg]
        refine ⟨_, rfl, ?_, ?_⟩
        · intro _; rfl
        · intro hno
          exact absurd ((over_length_step msg cp len h0 hs).2 (Or.inl hneg)) hno
      · rw [if_neg hneg]
        have hs1 : 1 ≤ seg_len msg cp := Nat.one_le_iff_ne_zero.2 hs
        obtain ⟨r, hr, hA, hB⟩ := ih (seg_data msg cp + seg_len msg cp)
          (len - ((seg_len msg cp : Int) + 1))
          (if ind then clen else if seg_ptr msg cp then clen + 2
            else clen + 1 + (seg_len msg cp : Int))
          (ind || seg_ptr msg cp) (nseg + 1)
          (buf ++ bytesAt msg (seg_data msg cp) (seg_len msg cp) ++ [46])
          (by omega) (by omega) (by omega) (by split_ifs <;> omega)
        refine ⟨r, hr, ?_, ?_⟩
        · intro ho
          rcases (over_length_step msg cp len h0 hs).1 ho with h | h
          · exact absurd h hneg
          · exact hA h
        · intro hno
          exact hB (fun h => hno ((over_length_step msg cp len h0 hs).2 (Or.inr h)))

/-- The loop of `parse_name` returns within 16385 iterations, whatever the
16-bit budget it starts from. -/
theorem parse_name_loop_isSome (msg : Nat → Nat) (cp : Nat) (len clen : Int) (ind : Bool)
    (nseg : Nat) (buf : List Nat) (h0 : -32768 ≤ len) (h1 : len ≤ 32767) (hc : 0 ≤ clen) :
    ∃ r, parse_name_loop msg 16385 cp len clen ind nseg buf = some r := by
  by_cases hlen : 0 ≤ len
  · obtain ⟨r, hr, _⟩ := parse_name_loop_spec msg 16385 cp len clen ind nseg buf hlen h1
      (by push_cast; omega) hc
    exact ⟨r, hr⟩
  · rw [parse_name_loop_succ]
    by_cases hs : seg_len msg cp = 0
    · rw [if_pos hs]; exact ⟨_, rfl⟩
    · rw [if_neg hs]
      by_cases hneg : wrap16 (len - ((seg_len msg cp : Int) + 1)) < 0
      · rw [if_pos hneg]; exact ⟨_, rfl⟩
      · rw [if_neg hneg]
        have hr := wrap16_range (len - ((seg_len msg cp : Int) + 1))
        obtain ⟨r, hr, _⟩ := parse_name_loop_spec msg 16384
          (seg_data msg cp + seg_len msg cp) (wrap16 (len - ((seg_len msg cp : Int) + 1)))
          (if ind then clen else if seg_ptr msg cp then clen + 2
            else clen + 1 + (seg_len msg cp : Int))
          (ind || seg_ptr msg cp) (nseg + 1)
          (buf ++ bytesAt msg (seg_data msg cp) (seg_len msg cp) ++ [46])
          (by omega) hr.2 (by push_cast; omega) (by split_ifs <;> omega)
        exact ⟨r, hr⟩

/-- The value of `parse_name` is the value of its loop: the default of the definition is
never used. -/
theorem parse_name_eq_loop (msg : Nat → Nat) (cp : Nat) (len : Int) :
    parse_name_loop msg 16385 cp (wrap16 len) 0 false 0 [] = some (parse_name msg cp len) := by
  obtain ⟨r, hr⟩ := parse_name_loop_isSome msg cp (wrap16 len) 0 false 0 []
    (wrap16_range len).1 (wrap16_range len).2 (le_refl 0)
  simp [parse_name, hr]

/-- C10. For every message, start offset and output limit `maxOutputLen` with
`0 ≤ maxOutputLen` (an `int16_t`, so at most 32767), `parse_name` returns
`-1` if and only if at some segment it reads, directly or behind a pointer,
the accumulated literal length of the segments read so far, each counted
with its one-byte separator, exceeds `maxOutputLen`; in every other case
the value it returns is a consumed length that is not negative. -/
theorem parse_name_fails_iff_over_length (msg : Nat → Nat) (compressed : Nat)
    (maxOutputLen : Int) (h0 : 0 ≤ maxOutputLen) (h1 : maxOutputLen ≤ 32767) :
    ((parse_name msg compressed maxOutputLen).1 = -1 ↔
        ∃ n, maxOutputLen < literal_length msg n compressed) ∧
      ((parse_name msg compressed maxOutputLen).1 ≠ -1 →
        0 ≤ (parse_name msg compressed maxOutputLen).1) := by
  have hw : wrap16 maxOutputLen = maxOutputLen := wrap16_of_range _ (by omega) h1
  obtain ⟨r, hr, hA, hB⟩ := parse_name_loop_spec msg 16385 compressed maxOutputLen 0 false 0 []
    h0 h1 (by omega) (le_refl 0)
  have he := parse_name_eq_loop msg compressed maxOutputLen
  rw [hw, hr] at he
  have hr' : parse_name msg compressed maxOutputLen = r := (Option.some.inj he).symm
  rw [hr']
  constructor
  · constructor
    · intro h
      by_contra hno
      have := hB hno
      omega
    · exact hA
  · intro hne
    by_cases ho : over_length msg compressed maxOutputLen
    · exact absurd (hA ho) hne
    · exact hB ho

/-- Witness for C10: in the query for `local` the single label counts 6
bytes, so a limit of 5 is exceeded. -/
theorem parse_name_fails_iff_over_length_witness :
    (0 : Int) ≤ 5 ∧ (5 : Int) ≤ 32767 ∧
      (((parse_name (ofBytes (mdns_makequery name_local).2) 12 5).1 = -1 ↔
          ∃ n, (5 : Int) < literal_length (ofBytes (mdns_makequery name_local).2) n 12) ∧
        ((parse_name (ofBytes (mdns_makequery name_local).2) 12 5).1 ≠ -1 →
          0 ≤ (parse_name (ofBytes (mdns_makequery name_local).2) 12 5).1)) :=
  ⟨by decide, by decide,
    parse_name_fails_iff_over_length (ofBytes (mdns_makequery name_local).2) 12 5
      (by decide) (by decide)⟩

/-! ## Answer records -/

theorem bytesAt_four (msg : Nat → Nat) (p : Nat) :
    bytesAt msg p 4 = [rd msg p, rd msg (p + 1), rd msg (p + 2), rd msg (p + 3)] := by
  simp [bytesAt, List.range, List.range.loop]

/-- C4. For every message and cursor at which an answer record starts with a
decodable name occupying `n` bytes and a type field equal to 1 (A),
`mdns_answer` returns the cursor advanced by exactly `n + 10 + 4` bytes and
stores as the address exactly the 4 bytes at offsets `n+10 .. n+13` from
the record start, whatever the class, ttl and rdata-length fields hold. -/
theorem mdns_answer_type_a (D : Nat) (msg : Nat → Nat) (cp n : Nat) (ip_from_mdns : List Nat)
    (hname : (parse_name msg cp (MAXCNAME D)).1 = (n : Int))
    (htype : get16 msg (cp + n) = 1) :
    mdns_answer D msg cp ip_from_mdns =
      (some (cp + n + 10 + 4), bytesAt msg (cp + n + 10) 4) := by
  have hne : ¬ ((n : Int) = -1) := by omega
  simp only [mdns_answer, hname, hne, if_false, Int.toNat_ofNat, htype, mdns_answer_rdata,
    if_true, bytesAt_four]

/-- Witness for C4: the record of `www.example.com` at offset 12 of
`reply_www` has a 17-byte name; the cursor advances by 31 and the address
is the four bytes behind the fixed fields. -/
theorem mdns_answer_type_a_witness :
    (parse_name (ofBytes reply_www) 12 (MAXCNAME 16)).1 = ((17 : Nat) : Int) ∧
      get16 (ofBytes reply_www) (12 + 17) = 1 ∧
      mdns_answer 16 (ofBytes reply_www) 12 [0, 0, 0, 0] =
        (some (12 + 17 + 10 + 4), bytesAt (ofBytes reply_www) (12 + 17 + 10) 4) ∧
      bytesAt (ofBytes reply_www) (12 + 17 + 10) 4 = [192, 168, 1, 7] :=
  ⟨by decide, by decide,
    mdns_answer_type_a 16 (ofBytes reply_www) 12 17 [0, 0, 0, 0] (by decide) (by decide),
    by decide⟩

/-- The cursor returned by `mdns_answer` does not depend on the address
cells it is given. -/
theorem mdns_answer_cursor (D : Nat) (msg : Nat → Nat) (cp : Nat) (ip ip' : List Nat) :
    (mdns_answer D msg cp ip).1 = (mdns_answer D msg cp ip').1 := by
  simp only [mdns_answer, mdns_answer_rdata]
  repeat' split
  all_goals rfl

/-- The address cells after `mdns_answer` returns a cursor: the payload of
the record when its type is A, the previous contents otherwise. -/
theorem mdns_answer_cells (D : Nat) (msg : Nat → Nat) (cp c : Nat) (ip : List Nat)
    (h : (mdns_answer D msg cp ip).1 = some c) :
    (mdns_answer D msg cp ip).2 =
      if record_type D msg cp = 1 then record_payload D msg cp else ip := by
  simp only [mdns_answer, mdns_answer_rdata, record_type, record_payload, bytesAt_four] at h ⊢
  repeat' split
  all_goals first | rfl | simp_all

/-- When the answer loop comes to its end, the address cells hold the
payload of the last A-type record it walked, or their previous contents
when it walked none. -/
theorem answer_loop_cells (D : Nat) (msg : Nat → Nat) :
    ∀ (n cp : Nat) (ip : List Nat) (c : Nat),
      (answer_loop D msg n cp ip).1 = some c →
      (answer_loop D msg n cp ip).2 = ((a_payloads D msg n cp).getLast?).getD ip := by
  intro n
  induction n with
  | zero => intro cp ip c _; simp [answer_loop, a_payloads, answer_starts]
  | succ n ih =>
    intro cp ip c h
    rw [answer_loop] at h ⊢
    rcases hm : mdns_answer D msg cp ip with ⟨o, ipa⟩
    rw [hm] at h
    cases o with
    | none => simp at h
    | some cpa =>
      simp only at h ⊢
      have h1 : (mdns_answer D msg cp []).1 = some cpa := by
        rw [mdns_answer_cursor D msg cp [] ip, hm]
      have h2 := mdns_answer_cells D msg cp cpa ip (by rw [hm])
      rw [hm] at h2
      simp only at h2
      rw [ih cpa ipa c h, h2]
      simp only [a_payloads, answer_starts, h1, List.filter_cons]
      by_cases ht : record_type D msg cp = 1
      · simp only [ht, decide_True, if_true, List.map_cons]
        cases hl : List.map (record_payload D msg)
            (List.filter (fun c => decide (record_type D msg c = 1)) (answer_starts D msg n cpa)) with
        | nil => simp
        | cons a l => rw [List.getLast?_eq_getLast _ (List.cons_ne_nil a l)]; rfl
      · simp [ht]

/-- The value returned by `parseMDNSMSG` is `-1`, `0` or `1`, and it is `1`
exactly when all records parse and the response code is zero. -/
theorem parseMDNSMSG_ret (D : Nat) (msg : Nat → Nat) (ip : List Nat) :
    (parseMDNSMSG D msg ip).1 = -1 ∨
      ((parseMDNSMSG D msg ip).1 = 1 ∧ get16 msg 2 % 16 = 0) ∨
      ((parseMDNSMSG D msg ip).1 = 0 ∧ get16 msg 2 % 16 ≠ 0) := by
  have hr : (parse_header msg).rcode = get16 msg 2 % 16 :=
    Nat.and_pow_two_sub_one_eq_mod (get16 msg 2) 4
  simp only [parseMDNSMSG]
  split
  · exact Or.inl rfl
  · split
    · exact Or.inl rfl
    · rw [hr]
      by_cases h : get16 msg 2 % 16 = 0
      · exact Or.inr (Or.inl ⟨by simp [h], h⟩)
      · exact Or.inr (Or.inr ⟨by simp [h], h⟩)

/-- The address cells after a `parseMDNSMSG` that did not return `-1`. -/
theorem parseMDNSMSG_cells (D : Nat) (msg : Nat → Nat) (ip : List Nat)
    (h : (parseMDNSMSG D msg ip).1 ≠ -1) :
    (parseMDNSMSG D msg ip).2.2 = ((reply_a_payloads D msg).getLast?).getD ip := by
  have hq : (parse_header msg).qdcount = get16 msg 4 := rfl
  have ha : (parse_header msg).ancount = get16 msg 6 := rfl
  simp only [parseMDNSMSG, reply_a_payloads, hq, ha] at h ⊢
  cases hql : question_loop D msg (get16 msg 4) 12 with
  | none => simp [hql] at h
  | some cq =>
    simp only [hql] at h ⊢
    rcases hal : answer_loop D msg (get16 msg 6) cq ip with ⟨o, ipa⟩
    cases o with
    | none => simp [hal] at h
    | some c =>
      have := answer_loop_cells D msg (get16 msg 6) cq ip c (by rw [hal])
      rw [hal] at this
      simpa using this

/-- The session after a pass of the loop that finds a datagram: the reply
is parsed in the buffer and `MDNS_run` returns what `parseMDNSMSG` returns. -/
theorem step_poll_receive (cfg : Config) (s : Session) (rsr : Nat) (dgram : List Nat)
    (hrun : s.ret = none) (hrx : 0 < rsr % 65536) :
    (step cfg s (Event.poll rsr dgram)).ret =
      some (parseMDNSMSG cfg.MAX_DOMAIN_NAME (step cfg s (Event.poll rsr dgram)).pMDNSMSG
        s.ip_from_mdns).1 ∧
    (step cfg s (Event.poll rsr dgram)).ip_from_mdns =
      (parseMDNSMSG cfg.MAX_DOMAIN_NAME (step cfg s (Event.poll rsr dgram)).pMDNSMSG
        s.ip_from_mdns).2.2 := by
  simp [step, hrun, MDNS_run_poll, hrx]

/-- C6. For every reply message whose header rcode (the low 4 bits of the
flags word) is nonzero, `parseMDNSMSG` does not return the success value
1; and a waiting session that receives such a reply returns 0 or -1 from
`MDNS_run`, never 1, whatever the answer section contains. -/
theorem nonzero_rcode_never_success :
    (∀ (D : Nat) (msg : Nat → Nat) (ip : List Nat),
        get16 msg 2 % 16 ≠ 0 → (parseMDNSMSG D msg ip).1 ≠ 1) ∧
    (∀ (cfg : Config) (s : Session) (rsr : Nat) (dgram : List Nat),
        s.ret = none → 0 < rsr % 65536 →
        get16 (step cfg s (Event.poll rsr dgram)).pMDNSMSG 2 % 16 ≠ 0 →
        (step cfg s (Event.poll rsr dgram)).ret = some 0 ∨
          (step cfg s (Event.poll rsr dgram)).ret = some (-1)) := by
  constructor
  · intro D msg ip h
    rcases parseMDNSMSG_ret D msg ip with h1 | ⟨_, h1⟩ | ⟨h1, _⟩
    · rw [h1]; decide
    · exact absurd h1 h
    · rw [h1]; decide
  · intro cfg s rsr dgram hrun hrx h
    rw [(step_poll_receive cfg s rsr dgram hrun hrx).1]
    rcases parseMDNSMSG_ret cfg.MAX_DOMAIN_NAME (step cfg s (Event.poll rsr dgram)).pMDNSMSG
      s.ip_from_mdns with h1 | ⟨_, h1⟩ | ⟨h1, _⟩
    · exact Or.inr (by rw [h1])
    · exact absurd h1 h
    · exact Or.inl (by rw [h1])

/-- Witness for C6: `reply_nxdomain` has rcode 3 and one A answer; parsing
it returns 0, and the session waiting for `local` that receives it returns
0 as well. -/
theorem nonzero_rcode_never_success_witness :
    get16 (ofBytes reply_nxdomain) 2 % 16 ≠ 0 ∧
      (parseMDNSMSG 16 (ofBytes reply_nxdomain) [0, 0, 0, 0]).1 ≠ 1 ∧
      session_local.ret = none ∧ 0 < 43 % 65536 ∧
      get16 (step cfg_small session_local (Event.poll 43 reply_nxdomain)).pMDNSMSG 2 % 16 ≠ 0 ∧
      ((step cfg_small session_local (Event.poll 43 reply_nxdomain)).ret = some 0 ∨
        (step cfg_small session_local (Event.poll 43 reply_nxdomain)).ret = some (-1)) :=
  ⟨by decide,
    nonzero_rcode_never_success.1 16 (ofBytes reply_nxdomain) [0, 0, 0, 0] (by decide),
    by decide, by decide, by decide,
    nonzero_rcode_never_success.2 cfg_small session_local 43 reply_nxdomain
      (by decide) (by decide) (by decide)⟩

/-- C8, as stated, fails: `reply_two_a` parses, its first A-type answer
carries `10.0.0.1`, and the address delivered to the caller is not that
one but `10.0.0.2`, the payload of the second A-type answer. -/
theorem first_a_record_not_delivered :
    (parseMDNSMSG 16 (ofBytes reply_two_a) [0, 0, 0, 0]).1 = 1 ∧
      (reply_a_payloads 16 (ofBytes reply_two_a)).head? = some [10, 0, 0, 1] ∧
      (parseMDNSMSG 16 (ofBytes reply_two_a) [0, 0, 0, 0]).2.2 ≠ [10, 0, 0, 1] ∧
      (parseMDNSMSG 16 (ofBytes reply_two_a) [0, 0, 0, 0]).2.2 = [10, 0, 0, 2] := by
  decide

/-- C8, amended. For every reply whose question and answer records all
parse and whose answer section contains at least one A-type record, the
address that `parseMDNSMSG` delivers to the caller is the 4-byte payload
of the last A-type answer in message order. -/
theorem last_a_record_wins (D : Nat) (msg : Nat → Nat) (ip : List Nat)
    (hparse : (parseMDNSMSG D msg ip).1 ≠ -1) (hA : reply_a_payloads D msg ≠ []) :
    (parseMDNSMSG D msg ip).2.2 = (reply_a_payloads D msg).getLast hA := by
  rw [parseMDNSMSG_cells D msg ip hparse, List.getLast?_eq_getLast _ hA]
  rfl

/-- Witness for the amended C8: the reply `reply_two_a`. -/
theorem last_a_record_wins_witness :
    ∃ h : reply_a_payloads 16 (ofBytes reply_two_a) ≠ [],
      (parseMDNSMSG 16 (ofBytes reply_two_a) [0, 0, 0, 0]).1 ≠ -1 ∧
      (parseMDNSMSG 16 (ofBytes reply_two_a) [0, 0, 0, 0]).2.2 =
        (reply_a_payloads 16 (ofBytes reply_two_a)).getLast h :=
  ⟨by decide, by decide,
    last_a_record_wins 16 (ofBytes reply_two_a) [0, 0, 0, 0] (by decide) (by decide)⟩

/-- C9, as stated, fails: `reply_empty` parses without error, has rcode 0
and no answer record at all, and yet `parseMDNSMSG` returns the success
value 1, and so does the `MDNS_run` of a session that receives it. -/
theorem no_address_reported_as_success :
    get16 (ofBytes reply_empty) 2 % 16 = 0 ∧
      reply_a_payloads 16 (ofBytes reply_empty) = [] ∧
      (parseMDNSMSG 16 (ofBytes reply_empty) [0, 0, 0, 0]).1 = 1 ∧
      (step cfg_small session_local (Event.poll 12 reply_empty)).ret = some 1 := by
  decide

/-- C9, amended. For every reply that parses without error and has rcode 0,
`parseMDNSMSG` returns the success value 1, and the `MDNS_run` of a waiting
session that receives it returns 1, also when the reply contains no A-type
answer record; in that case the address cells keep what the caller had
put there. -/
theorem rcode_zero_is_success :
    (∀ (D : Nat) (msg : Nat → Nat) (ip : List Nat),
        (parseMDNSMSG D msg ip).1 ≠ -1 → get16 msg 2 % 16 = 0 →
        (parseMDNSMSG D msg ip).1 = 1 ∧
          (reply_a_payloads D msg = [] → (parseMDNSMSG D msg ip).2.2 = ip)) ∧
    (∀ (cfg : Config) (s : Session) (rsr : Nat) (dgram : List Nat),
        s.ret = none → 0 < rsr % 65536 →
        (parseMDNSMSG cfg.MAX_DOMAIN_NAME (step cfg s (Event.poll rsr dgram)).pMDNSMSG
          s.ip_from_mdns).1 ≠ -1 →
        get16 (step cfg s (Event.poll rsr dgram)).pMDNSMSG 2 % 16 = 0 →
        (step cfg s (Event.poll rsr dgram)).ret = some 1 ∧
          (reply_a_payloads cfg.MAX_DOMAIN_NAME (step cfg s (Event.poll rsr dgram)).pMDNSMSG = [] →
            (step cfg s (Event.poll rsr dgram)).ip_from_mdns = s.ip_from_mdns)) := by
  have key : ∀ (D : Nat) (msg : Nat → Nat) (ip : List Nat),
      (parseMDNSMSG D msg ip).1 ≠ -1 → get16 msg 2 % 16 = 0 →
      (parseMDNSMSG D msg ip).1 = 1 ∧
        (reply_a_payloads D msg = [] → (parseMDNSMSG D msg ip).2.2 = ip) := by
    intro D msg ip hp hr
    constructor
    · rcases parseMDNSMSG_ret D msg ip with h1 | ⟨h1, _⟩ | ⟨_, h1⟩
      · exact absurd h1 hp
      · exact h1
      · exact absurd hr h1
    · intro he
      rw [parseMDNSMSG_cells D msg ip hp, he]
      rfl
  refine ⟨key, ?_⟩
  intro cfg s rsr dgram hrun hrx hp hr
  obtain ⟨k1, k2⟩ := key cfg.MAX_DOMAIN_NAME (step cfg s (Event.poll rsr dgram)).pMDNSMSG
    s.ip_from_mdns hp hr
  obtain ⟨e1, e2⟩ := step_poll_receive cfg s rsr dgram hrun hrx
  exact ⟨by rw [e1, k1], fun he => by rw [e2, k2 he]⟩

/-- Witness for the amended C9: the bare header `reply_empty`. -/
theorem rcode_zero_is_success_witness :
    (parseMDNSMSG 16 (ofBytes reply_empty) [9, 9, 9, 9]).1 ≠ -1 ∧
      get16 (ofBytes reply_empty) 2 % 16 = 0 ∧
      ((parseMDNSMSG 16 (ofBytes reply_empty) [9, 9, 9, 9]).1 = 1 ∧
        (reply_a_payloads 16 (ofBytes reply_empty) = [] →
          (parseMDNSMSG 16 (ofBytes reply_empty) [9, 9, 9, 9]).2.2 = [9, 9, 9, 9])) ∧
      session_local.ret = none ∧ 0 < 12 % 65536 ∧
      ((step cfg_small session_local (Event.poll 12 reply_empty)).ret = some 1 ∧
        (reply_a_payloads cfg_small.MAX_DOMAIN_NAME
            (step cfg_small session_local (Event.poll 12 reply_empty)).pMDNSMSG = [] →
          (step cfg_small session_local (Event.poll 12 reply_empty)).ip_from_mdns =
            session_local.ip_from_mdns)) :=
  ⟨by decide, by decide,
    rcode_zero_is_success.1 16 (ofBytes reply_empty) [9, 9, 9, 9] (by decide) (by decide),
    by decide, by decide,
    rcode_zero_is_success.2 cfg_small session_local 12 reply_empty
      (by decide) (by decide) (by decide) (by decide)⟩

/-! ## The encoder of `mdns_makequery` -/

theorem strchr_none (l : List Nat) (c : Nat) (h : ∀ b ∈ l, b ≠ c) : strchr l c = none := by
  induction l with
  | nil => rfl
  | cons a l ih =>
    have ha : a ≠ c := h a (List.mem_cons_self a l)
    simp [strchr, ha, ih (fun b hb => h b (List.mem_cons_of_mem a hb))]

theorem strchr_append (l r : List Nat) (c : Nat) (h : ∀ b ∈ l, b ≠ c) :
    strchr (l ++ c :: r) c = some l.length := by
  induction l with
  | nil => simp [strchr]
  | cons a l ih =>
    have ha : a ≠ c := h a (List.mem_cons_self a l)
    simp [strchr, ha, ih (fun b hb => h b (List.mem_cons_of_mem a hb))]

theorem strchr_lt (l : List Nat) (c i : Nat) (h : strchr l c = some i) : i < l.length := by
  induction l generalizing i with
  | nil => simp [strchr] at h
  | cons a l ih =>
    simp only [strchr] at h
    split at h
    · simp at h; simp [← h]
    · cases hs : strchr l c with
      | none => simp [hs] at h
      | some j =>
        simp [hs] at h
        have := ih j hs
        simp [← h, this]

theorem cstr_eq_self (l : List Nat) (h : ∀ b ∈ l, b ≠ 0) : cstr l = l := by
  induction l with
  | nil => rfl
  | cons a l ih =>
    have ha : a ≠ 0 := h a (List.mem_cons_self a l)
    have := ih (fun b hb => h b (List.mem_cons_of_mem a hb))
    have hne : (a != 0) = true := by simp [ha]
    simp only [cstr] at this ⊢
    simp only [List.takeWhile, hne, this]

/-- The loop of `mdns_makequery` returns within one iteration per byte of
the name and one more. -/
theorem makequery_loop_isSome :
    ∀ (fuel : Nat) (dname : List Nat) (dlen : Nat) (out : List Nat),
      dname.length < fuel → ∃ r, makequery_loop fuel dname dlen out = some r := by
  intro fuel
  induction fuel with
  | zero => intro dname dlen out h; omega
  | succ f ih =>
    intro dname dlen out h
    simp only [makequery_loop]
    cases hc : strchr dname 46 with
    | none =>
      simp only
      split
      · exact ⟨_, rfl⟩
      · exact ⟨_, rfl⟩
    | some i =>
      simp only
      split
      · exact ⟨_, rfl⟩
      · have hi := strchr_lt dname 46 i hc
        apply ih
        rw [List.length_drop]
        omega

theorem dotted_cons_cons (l m : List Nat) (ls : List (List Nat)) :
    dotted (l :: m :: ls) = l ++ 46 :: dotted (m :: ls) := rfl

/-- On a dotted name of valid labels the loop of `mdns_makequery` writes the
labels, each behind its length byte, and one closing zero byte. -/
theorem makequery_loop_dotted :
    ∀ (ls : List (List Nat)) (l : List Nat) (fuel dlen : Nat) (out : List Nat),
      valid_label l → (∀ m ∈ ls, valid_label m) →
      (dotted (l :: ls)).length < fuel → (dotted (l :: ls)).length < 65536 →
      dlen = (dotted (l :: ls)).length →
      makequery_loop fuel (dotted (l :: ls)) dlen out = some (out ++ encode_labels (l :: ls)) := by
  intro ls
  induction ls with
  | nil =>
    intro l fuel dlen out hl _ hf h16 hd
    obtain ⟨h1, h63, hb⟩ := hl
    cases fuel with
    | zero => omega
    | succ f =>
      have hnone : strchr l 46 = none := strchr_none l 46 (fun b hb' => (hb b hb').2.2)
      have hd' : dlen = l.length := hd
      have hne : ¬ l.length = 0 := by omega
      have hmod : l.length % 256 = l.length := Nat.mod_eq_of_lt (by omega)
      simp [makequery_loop, dotted, hnone, hd', hne, hmod, strncpy, encode_labels]
  | cons m ls ih =>
    intro l fuel dlen out hl hls hf h16 hd
    obtain ⟨h1, h63, hb⟩ := hl
    cases fuel with
    | zero => omega
    | succ f =>
      rw [dotted_cons_cons] at hf h16 hd ⊢
      have hsome : strchr (l ++ 46 :: dotted (m :: ls)) 46 = some l.length :=
        strchr_append l _ 46 (fun b hb' => (hb b hb').2.2)
      have hne : ¬ l.length = 0 := by omega
      have hmod : l.length % 256 = l.length := by omega
      have hm16 : l.length % 65536 = l.length := by omega
      simp only [List.length_append, List.length_cons] at hf h16 hd
      have hdrop : List.drop (l.length + 1) (l ++ 46 :: dotted (m :: ls)) = dotted (m :: ls) := by
        rw [List.drop_append_eq_append_drop]
        simp
      have htake : strncpy (l ++ 46 :: dotted (m :: ls)) l.length = l := by
        simp [strncpy, List.take_append_eq_append_take]
      simp only [makequery_loop, hsome, hm16, hne, if_false, hmod, hdrop, htake]
      rw [ih m f ((dlen + 65536 - (l.length + 1) % 65536) % 65536) (out ++ [l.length] ++ l)
        (hls m (List.mem_cons_self m ls))
        (fun x hx => hls x (List.mem_cons_of_mem m hx)) (by omega) (by omega) (by omega)]
      simp [encode_labels]

theorem dotted_ne_zero :
    ∀ (ls : List (List Nat)), (∀ l ∈ ls, valid_label l) → ∀ b ∈ dotted ls, b ≠ 0 := by
  intro ls
  induction ls with
  | nil => intro _ b hb; simp [dotted] at hb
  | cons l ls ih =>
    intro hv b hb
    have hl := hv l (List.mem_cons_self l ls)
    cases ls with
    | nil =>
      simp only [dotted] at hb
      have := (hl.2.2 b hb).1
      omega
    | cons m ls =>
      rw [dotted_cons_cons] at hb
      rcases List.mem_append.1 hb with h | h
      · have := (hl.2.2 b h).1
        omega
      · rcases List.mem_cons.1 h with h | h
        · omega
        · exact ih (fun x hx => hv x (List.mem_cons_of_mem l hx)) b h

/-- The bytes that `mdns_makequery` writes for a dotted name of valid labels. -/
theorem mdns_makequery_bytes (labels : List (List Nat)) (hv : ∀ l ∈ labels, valid_label l)
    (h16 : (dotted labels).length < 65536) :
    (mdns_makequery (dotted labels)).2 =
      [0, 0, 0, 0, 0, 1, 0, 0, 0, 0, 0, 0] ++ encode_labels labels ++ [0, 1, 0x80, 1] := by
  have hc : cstr (dotted labels) = dotted labels :=
    cstr_eq_self _ (dotted_ne_zero labels hv)
  have hmod : (dotted labels).length % 65536 = (dotted labels).length := Nat.mod_eq_of_lt h16
  simp only [mdns_makequery, hc, hmod]
  cases labels with
  | nil => simp [dotted, makequery_loop, strchr, encode_labels, query_header, put16]
  | cons l ls =>
    rw [makequery_loop_dotted ls l _ _ query_header (hv l (List.mem_cons_self l ls))
      (fun x hx => hv x (List.mem_cons_of_mem l hx)) (by omega) h16 rfl]
    simp [query_header, put16]

theorem encode_labels_length :
    ∀ (labels : List (List Nat)), labels ≠ [] →
      (encode_labels labels).length = (dotted labels).length + 2 := by
  intro labels
  induction labels with
  | nil => intro h; exact absurd rfl h
  | cons l ls ih =>
    intro _
    cases ls with
    | nil => simp [encode_labels, dotted]
    | cons m ls =>
      rw [dotted_cons_cons]
      have := ih (List.cons_ne_nil m ls)
      simp only [encode_labels, List.length_cons, List.length_append] at this ⊢
      omega

theorem encode_labels_length_le (labels : List (List Nat)) :
    (encode_labels labels).length ≤ (dotted labels).length + 2 := by
  cases labels with
  | nil => simp [encode_labels]
  | cons l ls => exact le_of_eq (encode_labels_length _ (List.cons_ne_nil l ls))

theorem region_cons (msg : Nat → Nat) (p a : Nat) (bs : List Nat) (h : region msg p (a :: bs)) :
    rd msg p = a ∧ region msg (p + 1) bs := by
  constructor
  · have := h 0 (by simp)
    simpa using this
  · intro i hi
    have := h (i + 1) (by simp; omega)
    rw [← add_assoc] at this
    rw [add_right_comm]
    simpa using this

theorem region_append (msg : Nat → Nat) (p : Nat) (xs ys : List Nat)
    (h : region msg p (xs ++ ys)) : region msg p xs ∧ region msg (p + xs.length) ys := by
  constructor
  · intro i hi
    have := h i (by simp; omega)
    rw [this, List.getD_append _ _ _ _ hi]
  · intro i hi
    have := h (xs.length + i) (by simp; omega)
    rw [add_assoc, this, List.getD_append_right _ _ _ _ (by omega)]
    simp

theorem bytesAt_region (msg : Nat → Nat) (p : Nat) (bs : List Nat) (h : region msg p bs) :
    bytesAt msg p bs.length = bs := by
  apply List.ext_getElem
  · simp [bytesAt]
  · intro i h1 h2
    simp only [bytesAt, List.getElem_map, List.getElem_range]
    rw [h i h2, List.getD_eq_getElem _ _ h2]

theorem region_ofBytes (pre bs post : List Nat) (hb : ∀ b ∈ bs, b < 256) :
    region (ofBytes (pre ++ bs ++ post)) pre.length bs := by
  intro i hi
  have hm : bs.getD i 0 ∈ bs := by
    rw [List.getD_eq_getElem _ _ hi]; exact List.getElem_mem _
  simp only [rd, ofBytes]
  rw [List.append_assoc, List.getD_append_right _ _ _ _ (by omega)]
  simp only [Nat.add_sub_cancel_left]
  rw [List.getD_append _ _ _ _ hi]
  exact Nat.mod_eq_of_lt (hb _ hm)

theorem seg_of_literal (msg : Nat → Nat) (cp k : Nat) (h : rd msg cp = k) (hk : k ≤ 63) :
    seg_ptr msg cp = false ∧ seg_len msg cp = k ∧ seg_data msg cp = cp + 1 := by
  have hp : seg_ptr msg cp = false := by
    have h1 : k &&& 0xc0 ≤ k := Nat.and_le_left
    simp only [seg_ptr, h, decide_eq_false_iff_not]
    omega
  simp [seg_len, seg_data, hp, h]

theorem labels_out_length_ge (ls : List (List Nat)) (hv : ∀ l ∈ ls, valid_label l) :
    2 * ls.length ≤ (labels_out ls).length := by
  induction ls with
  | nil => simp
  | cons l ls ih =>
    have := ih (fun x hx => hv x (List.mem_cons_of_mem l hx))
    have hl := (hv l (List.mem_cons_self l ls)).1
    simp only [labels_out, List.length_cons, List.length_append]
    omega

theorem labels_out_eq (ls : List (List Nat)) (h : ls ≠ []) :
    labels_out ls = dotted ls ++ [46] := by
  induction ls with
  | nil => exact absurd rfl h
  | cons l ls ih =>
    cases ls with
    | nil => simp [labels_out, dotted]
    | cons m ls =>
      rw [dotted_cons_cons, labels_out, ih (List.cons_ne_nil m ls)]
      simp

/-- On the encoding of valid labels, and with room for them in the budget,
the loop of `parse_name` writes every label followed by a dot and counts
every byte of the encoding. -/
theorem parse_name_loop_encoded (msg : Nat → Nat) :
    ∀ (ls : List (List Nat)) (fuel cp : Nat) (len clen : Int) (nseg : Nat) (buf : List Nat),
      (∀ l ∈ ls, valid_label l) → region msg cp (encode_labels ls) →
      ((labels_out ls).length : Int) ≤ len → len ≤ 32767 → ls.length < fuel →
      parse_name_loop msg fuel cp len clen false nseg buf =
        some (parse_name_finish (clen + ((encode_labels ls).length : Int)) (nseg + ls.length)
          (buf ++ labels_out ls)) := by
  intro ls
  induction ls with
  | nil =>
    intro fuel cp len clen nseg buf _ hr _ _ hf
    cases fuel with
    | zero => simp at hf
    | succ f =>
      obtain ⟨h0, _⟩ := region_cons msg cp 0 [] hr
      obtain ⟨hp, hl, _⟩ := seg_of_literal msg cp 0 h0 (by omega)
      rw [parse_name_loop_succ]
      simp [hl, hp, encode_labels, labels_out]
  | cons l ls ih =>
    intro fuel cp len clen nseg buf hv hr hlen h1 hf
    cases fuel with
    | zero => simp at hf
    | succ f =>
      obtain ⟨hl1, hl63, _⟩ := hv l (List.mem_cons_self l ls)
      simp only [encode_labels] at hr ⊢
      obtain ⟨h0, hrest⟩ := region_cons msg cp l.length (l ++ encode_labels ls) hr
      obtain ⟨hdat, htail⟩ := region_append msg (cp + 1) l (encode_labels ls) hrest
      obtain ⟨hp, hl, hd⟩ := seg_of_literal msg cp l.length h0 hl63
      simp only [labels_out, List.length_append, List.length_cons] at hlen
      have hne : ¬ l.length = 0 := by omega
      have hw : wrap16 (len - ((l.length : Int) + 1)) = len - ((l.length : Int) + 1) :=
        wrap16_of_range _ (by omega) (by omega)
      have hnn : ¬ (len - ((l.length : Int) + 1) < 0) := by push_cast at hlen; omega
      rw [parse_name_loop_succ, hl, hd, hp, if_neg hne, hw, if_neg hnn, bytesAt_region msg _ l hdat]
      simp only [Bool.false_eq_true, if_false, Bool.or_false]
      rw [ih f (cp + 1 + l.length) _ _ (nseg + 1) _
        (fun x hx => hv x (List.mem_cons_of_mem l hx)) htail
        (by push_cast at hlen; omega) (by omega) (by simp at hf; omega)]
      simp only [labels_out, List.length_cons, List.length_append]
      congr 2
      · push_cast; omega
      · omega
      · simp

theorem encode_labels_lt (ls : List (List Nat)) (hv : ∀ l ∈ ls, valid_label l) :
    ∀ b ∈ encode_labels ls, b < 256 := by
  induction ls with
  | nil => intro b hb; simp [encode_labels] at hb; omega
  | cons l ls ih =>
    intro b hb
    have hl := hv l (List.mem_cons_self l ls)
    simp only [encode_labels, List.mem_cons, List.mem_append] at hb
    rcases hb with (h | h) | h
    · have := hl.2.1; omega
    · exact (hl.2.2 b h).2.1
    · exact ih (fun x hx => hv x (List.mem_cons_of_mem l hx)) b h

theorem cstr_append_nul (xs ys : List Nat) (h : ∀ b ∈ xs, b ≠ 0) : cstr (xs ++ 0 :: ys) = xs := by
  unfold cstr
  rw [List.takeWhile_append_of_pos (by simpa using h)]
  simp

/-- What `parse_name` returns at offset 12 of the query that `mdns_makequery`
built for a dotted name of valid labels that fits the limit with its
closing dot: the length of the encoding, and the name followed by one dot
and the closing NUL. -/
theorem parse_name_makequery (labels : List (List Nat)) (len : Int) (hne : labels ≠ [])
    (hv : ∀ l ∈ labels, valid_label l) (hlen : ((dotted labels).length : Int) + 1 ≤ len)
    (hmax : len ≤ 32767) :
    parse_name (ofBytes (mdns_makequery (dotted labels)).2) 12 len =
      ((((dotted labels).length + 2 : Nat) : Int), dotted labels ++ [46, 0]) := by
  have hb := mdns_makequery_bytes labels hv (by omega)
  have hreg : region (ofBytes (mdns_makequery (dotted labels)).2) 12 (encode_labels labels) := by
    rw [hb]
    exact region_ofBytes [0, 0, 0, 0, 0, 1, 0, 0, 0, 0, 0, 0] (encode_labels labels)
      [0, 1, 0x80, 1] (encode_labels_lt labels hv)
  have hout := labels_out_eq labels hne
  have hge := labels_out_length_ge labels hv
  have hol : (labels_out labels).length = (dotted labels).length + 1 := by rw [hout]; simp
  have hloop := parse_name_loop_encoded (ofBytes (mdns_makequery (dotted labels)).2) labels 16385
    12 len 0 0 [] hv hreg (by rw [hol]; push_cast; omega) hmax (by omega)
  have he := parse_name_eq_loop (ofBytes (mdns_makequery (dotted labels)).2) 12 len
  rw [wrap16_of_range len (by omega) hmax, hloop] at he
  rw [← Option.some.inj he]
  have hnz : ¬ labels.length = 0 := by
    intro h; exact hne (List.length_eq_zero.1 h)
  simp [parse_name_finish, hnz, hout, encode_labels_length labels hne]

/-- C1, as stated, fails. The string decoded from the encoding of `local` is
`local.`, with a dot that the name does not have; a name as long as
`MAXCNAME` (`locals`, 6 bytes, with `MAX_DOMAIN_NAME = 4`) is within the
maximum and is not decoded at all; and with a `MAXCNAME` above the range
of `int16_t` (65538, which `parse_name` receives as 2) the decoding of the
two-byte name `lo` fails as well. -/
theorem decode_encode_not_identity :
    cstr (parse_name (ofBytes (mdns_makequery name_local).2) 12 (MAXCNAME 16)).2 =
        name_local ++ [46] ∧
      cstr (parse_name (ofBytes (mdns_makequery name_local).2) 12 (MAXCNAME 16)).2 ≠
        name_local ∧
      ([0x6c, 0x6f, 0x63, 0x61, 0x6c, 0x73].length ≤ MAXCNAME 4 ∧
        (parse_name (ofBytes (mdns_makequery [0x6c, 0x6f, 0x63, 0x61, 0x6c, 0x73]).2) 12
          (MAXCNAME 4)).1 = -1) ∧
      ([0x6c, 0x6f].length + 1 ≤ MAXCNAME 43692 ∧
        (parse_name (ofBytes (mdns_makequery [0x6c, 0x6f]).2) 12 (MAXCNAME 43692)).1 = -1) := by
  decide

/-- C1, amended. For every dotted name whose labels are each 1..63 bytes
and whose length plus one (the closing dot) is within `MAXCNAME`, itself
within the range of `int16_t`, decoding with `parse_name` the label
sequence that the name encoder of `mdns_makequery` emits for that name
yields the original name followed by one dot. -/
theorem decode_encode_trailing_dot (D : Nat) (labels : List (List Nat)) (hne : labels ≠ [])
    (hv : ∀ l ∈ labels, valid_label l) (hlen : (dotted labels).length + 1 ≤ MAXCNAME D)
    (hmax : MAXCNAME D ≤ 32767) :
    cstr (parse_name (ofBytes (mdns_makequery (dotted labels)).2) 12 (MAXCNAME D)).2 =
      dotted labels ++ [46] := by
  rw [parse_name_makequery labels (MAXCNAME D) hne hv (by omega) (by omega)]
  have hnz : ∀ b ∈ dotted labels ++ [46], b ≠ 0 := by
    intro b hb
    rcases List.mem_append.1 hb with h | h
    · exact dotted_ne_zero labels hv b h
    · simp at h; omega
  have := cstr_append_nul (dotted labels ++ [46]) [] hnz
  simpa using this

/-- Witness for the amended C1: the name `local` with `MAX_DOMAIN_NAME = 16`. -/
theorem decode_encode_trailing_dot_witness :
    [name_local] ≠ [] ∧ (∀ l ∈ [name_local], valid_label l) ∧
      (dotted [name_local]).length + 1 ≤ MAXCNAME 16 ∧ MAXCNAME 16 ≤ 32767 ∧
      cstr (parse_name (ofBytes (mdns_makequery (dotted [name_local])).2) 12 (MAXCNAME 16)).2 =
        dotted [name_local] ++ [46] :=
  ⟨by decide, by decide, by decide, by decide,
    decode_encode_trailing_dot 16 [name_local] (by decide) (by decide) (by decide) (by decide)⟩

/-! ## Pointers -/

/-- Under indirection the loop of `parse_name` returns `-1` or the consumed
length it was entered with. -/
theorem parse_name_loop_indirect (msg : Nat → Nat) :
    ∀ (fuel cp : Nat) (len clen : Int) (nseg : Nat) (buf : List Nat) (r : Int × List Nat),
      parse_name_loop msg fuel cp len clen true nseg buf = some r → r.1 = -1 ∨ r.1 = clen := by
  intro fuel
  induction fuel with
  | zero => intro cp len clen nseg buf r h; simp [parse_name_loop] at h
  | succ f ih =>
    intro cp len clen nseg buf r h
    rw [parse_name_loop_succ] at h
    split at h
    · simp only [if_true, Option.some.injEq] at h
      rw [← h]; exact Or.inr rfl
    · split at h
      · simp only [Option.some.injEq] at h
        rw [← h]; exact Or.inl rfl
      · simp only [if_true, Bool.true_or] at h
        exact ih _ _ _ _ _ r h

/-- The bytes written by the loop of `parse_name`, and whether it fails, do
not depend on the consumed length and the indirection flag. -/
theorem parse_name_loop_output (msg : Nat → Nat) :
    ∀ (fuel cp : Nat) (len clen clen' : Int) (ind ind' : Bool) (nseg : Nat) (buf : List Nat)
      (r r' : Int × List Nat), 0 ≤ clen → 0 ≤ clen' →
      parse_name_loop msg fuel cp len clen ind nseg buf = some r →
      parse_name_loop msg fuel cp len clen' ind' nseg buf = some r' →
      r.2 = r'.2 ∧ (r.1 = -1 ↔ r'.1 = -1) := by
  intro fuel
  induction fuel with
  | zero => intro cp len clen clen' ind ind' nseg buf r r' _ _ h; simp [parse_name_loop] at h
  | succ f ih =>
    intro cp len clen clen' ind ind' nseg buf r r' hc hc' h h'
    rw [parse_name_loop_succ] at h h'
    by_cases hs : seg_len msg cp = 0
    · rw [if_pos hs, Option.some.injEq] at h h'
      rw [← h, ← h']
      simp only [parse_name_finish, true_and]
      constructor <;> intro hx <;> split_ifs at hx <;> omega
    · rw [if_neg hs] at h h'
      by_cases hneg : wrap16 (len - ((seg_len msg cp : Int) + 1)) < 0
      · rw [if_pos hneg, Option.some.injEq] at h h'
        rw [← h, ← h']
        simp
      · rw [if_neg hneg] at h h'
        exact ih _ _ _ _ _ _ _ _ r r' (by split_ifs <;> omega) (by split_ifs <;> omega) h h'

/-- The part of C3 that holds on the code: when the target `t` of the
pointer at `p` does not itself start with a pointer byte, `parse_name` at
`p` writes the same bytes as `parse_name` at `t`, and returns 2 whenever
the name at `t` is decoded. -/
theorem pointer_to_literal_target (msg : Nat → Nat) (p : Nat) (len : Int)
    (hp : seg_ptr msg p = true) (ht : seg_ptr msg (seg_target msg p) = false) :
    (parse_name msg p len).2 = (parse_name msg (seg_target msg p) len).2 ∧
      ((parse_name msg (seg_target msg p) len).1 ≠ -1 → (parse_name msg p len).1 = 2) := by
  have e1 := parse_name_eq_loop msg p len
  have e2 := parse_name_eq_loop msg (seg_target msg p) len
  rw [parse_name_loop_succ] at e1 e2
  have hl1 : seg_len msg p = rd msg (seg_target msg p) := by simp [seg_len, hp]
  have hd1 : seg_data msg p = seg_target msg p + 1 := by simp [seg_data, hp]
  have hl2 : seg_len msg (seg_target msg p) = rd msg (seg_target msg p) := by simp [seg_len, ht]
  have hd2 : seg_data msg (seg_target msg p) = seg_target msg p + 1 := by simp [seg_data, ht]
  rw [hl1, hd1, hp] at e1
  rw [hl2, hd2, ht] at e2
  by_cases hs : rd msg (seg_target msg p) = 0
  · rw [if_pos hs, Option.some.injEq] at e1 e2
    rw [← e1, ← e2]
    simp [parse_name_finish]
  · rw [if_neg hs] at e1 e2
    by_cases hneg : wrap16 (wrap16 len - ((rd msg (seg_target msg p) : Int) + 1)) < 0
    · rw [if_pos hneg, Option.some.injEq] at e1 e2
      rw [← e1, ← e2]
      simp
    · rw [if_neg hneg] at e1 e2
      simp only [Bool.false_eq_true, if_false, if_true, Bool.false_or, Bool.or_false] at e1 e2
      obtain ⟨h2, hiff⟩ := parse_name_loop_output msg _ _ _ _ _ _ _ _ _ _ _
        (by omega) (by omega) e1 e2
      refine ⟨h2, fun hne => ?_⟩
      rcases parse_name_loop_indirect msg _ _ _ _ _ _ _ e1 with h | h
      · exact absurd (hiff.1 h) hne
      · rw [h]; rfl

/-- C3 fails on the code where the target of the pointer is itself a pointer.
In `msg_chain` the name at offset 5 decodes to `abc.` with a consumed
length of 2, but at offset 7, whose pointer has the target 5, the byte
`c0` found at the target is taken for a label length of 192: with
`MAXCNAME = 24` the call returns `-1`, not 2, and with a limit of 384 it
returns 2 but writes the 192 bytes behind offset 5, which start with a
NUL, not `abc.`. -/
theorem pointer_to_pointer_misread :
    seg_ptr (ofBytes msg_chain) 7 = true ∧ seg_target (ofBytes msg_chain) 7 = 5 ∧
      parse_name (ofBytes msg_chain) 5 (MAXCNAME 16) = (2, [97, 98, 99, 46, 0]) ∧
      parse_name (ofBytes msg_chain) 7 (MAXCNAME 16) = (-1, []) ∧
      (parse_name (ofBytes msg_chain) 5 384).1 = 2 ∧
      cstr (parse_name (ofBytes msg_chain) 5 384).2 = [97, 98, 99, 46] ∧
      (parse_name (ofBytes msg_chain) 7 384).1 = 2 ∧
      cstr (parse_name (ofBytes msg_chain) 7 384).2 = [] := by
  decide

/-! ## The retry machine -/

theorem silent_ticks_succ (n : Nat) :
    silent_ticks (n + 1) = silent_ticks n ++ [Event.tick, Event.poll 0 []] := by
  induction n with
  | zero => rfl
  | succ n ih =>
    show Event.tick :: Event.poll 0 [] :: silent_ticks (n + 1) =
      (Event.tick :: Event.poll 0 [] :: silent_ticks n) ++ [Event.tick, Event.poll 0 []]
    rw [ih]
    rfl

theorem run_silent_succ (cfg : Config) (s : Session) (n : Nat) :
    run cfg s (silent_ticks (n + 1)) =
      step cfg (step cfg (run cfg s (silent_ticks n)) Event.tick) (Event.poll 0 []) := by
  rw [silent_ticks_succ]
  simp [run, List.foldl_append]

/-- A tick followed by a pass of the loop that finds nothing to receive, in
a waiting session whose tick counter stays below the threshold. -/
theorem round_waiting (cfg : Config) (s : Session) (hret : s.ret = none)
    (hW : cfg.MDNS_WAIT_TIME < 4294967296) (ht : s.mdns_1s_tick + 1 < cfg.MDNS_WAIT_TIME) :
    (step cfg (step cfg s Event.tick) (Event.poll 0 [])).ret = none ∧
      (step cfg (step cfg s Event.tick) (Event.poll 0 [])).mdns_1s_tick = s.mdns_1s_tick + 1 ∧
      (step cfg (step cfg s Event.tick) (Event.poll 0 [])).retry_count = s.retry_count ∧
      sends (step cfg (step cfg s Event.tick) (Event.poll 0 [])) = sends s := by
  have hm : (s.mdns_1s_tick + 1) % 4294967296 = s.mdns_1s_tick + 1 :=
    Nat.mod_eq_of_lt (by omega)
  have hn : ¬ cfg.MDNS_WAIT_TIME ≤ s.mdns_1s_tick + 1 := by omega
  simp [step, hret, MDNS_run_poll, check_MDNS_timeout, hm, hn, sends]

/-- The same round when the tick counter reaches the threshold and the
retry counter is below its maximum: the counter is reset, the retry is
counted and `sendto` is called once. -/
theorem round_retry (cfg : Config) (s : Session) (hret : s.ret = none)
    (hW : cfg.MDNS_WAIT_TIME < 4294967296) (ht : s.mdns_1s_tick + 1 = cfg.MDNS_WAIT_TIME)
    (hr : s.retry_count < cfg.MAX_MDNS_RETRY) (hM : cfg.MAX_MDNS_RETRY ≤ 255) :
    (step cfg (step cfg s Event.tick) (Event.poll 0 [])).ret = none ∧
      (step cfg (step cfg s Event.tick) (Event.poll 0 [])).mdns_1s_tick = 0 ∧
      (step cfg (step cfg s Event.tick) (Event.poll 0 [])).retry_count = s.retry_count + 1 ∧
      sends (step cfg (step cfg s Event.tick) (Event.poll 0 [])) = sends s + 1 := by
  have hm : (s.mdns_1s_tick + 1) % 4294967296 = s.mdns_1s_tick + 1 :=
    Nat.mod_eq_of_lt (by omega)
  have hn : cfg.MDNS_WAIT_TIME ≤ s.mdns_1s_tick + 1 := by omega
  have hn2 : ¬ cfg.MAX_MDNS_RETRY ≤ s.retry_count := by omega
  have hm2 : (s.retry_count + 1) % 256 = s.retry_count + 1 := Nat.mod_eq_of_lt (by omega)
  simp [step, hret, MDNS_run_poll, check_MDNS_timeout, hm, hn, hn2, hm2, sends, Call.isSend,
    List.filter_append]

/-- The same round when the tick counter reaches the threshold and the
retry counter is at its maximum: `MDNS_run` closes the socket and
returns 0 without another `sendto`. -/
theorem round_timeout (cfg : Config) (s : Session) (hret : s.ret = none)
    (hW : cfg.MDNS_WAIT_TIME < 4294967296) (ht : s.mdns_1s_tick + 1 = cfg.MDNS_WAIT_TIME)
    (hr : cfg.MAX_MDNS_RETRY ≤ s.retry_count) :
    (step cfg (step cfg s Event.tick) (Event.poll 0 [])).ret = some 0 ∧
      (step cfg (step cfg s Event.tick) (Event.poll 0 [])).mdns_1s_tick = 0 ∧
      (step cfg (step cfg s Event.tick) (Event.poll 0 [])).retry_count = 0 ∧
      sends (step cfg (step cfg s Event.tick) (Event.poll 0 [])) = sends s := by
  have hm : (s.mdns_1s_tick + 1) % 4294967296 = s.mdns_1s_tick + 1 :=
    Nat.mod_eq_of_lt (by omega)
  have hn : cfg.MDNS_WAIT_TIME ≤ s.mdns_1s_tick + 1 := by omega
  simp [step, hret, MDNS_run_poll, check_MDNS_timeout, hm, hn, hr, sends, Call.isSend,
    List.filter_append]

/-- The waiting session after `q * W + r` silent ticks (`r < W`, `q` at most
the retry maximum): `q` retries counted, `r` ticks into the current wait,
`q + 1` calls of `sendto`. -/
theorem run_silent_state (cfg : Config) (s : Session)
    (hW : cfg.MDNS_WAIT_TIME < 4294967296) (hM : cfg.MAX_MDNS_RETRY ≤ 255)
    (hret : s.ret = none) (ht : s.mdns_1s_tick = 0) (hr : s.retry_count = 0) :
    ∀ (q r : Nat), q ≤ cfg.MAX_MDNS_RETRY → r < cfg.MDNS_WAIT_TIME →
      (run cfg s (silent_ticks (q * cfg.MDNS_WAIT_TIME + r))).ret = none ∧
      (run cfg s (silent_ticks (q * cfg.MDNS_WAIT_TIME + r))).mdns_1s_tick = r ∧
      (run cfg s (silent_ticks (q * cfg.MDNS_WAIT_TIME + r))).retry_count = q ∧
      sends (run cfg s (silent_ticks (q * cfg.MDNS_WAIT_TIME + r))) = sends s + q := by
  intro q
  induction q with
  | zero =>
    intro r _
    induction r with
    | zero => intro _; simp [run, silent_ticks, hret, ht, hr]
    | succ r ih =>
      intro hrW
      obtain ⟨a, b, c, d⟩ := ih (by omega)
      have e : 0 * cfg.MDNS_WAIT_TIME + (r + 1) = (0 * cfg.MDNS_WAIT_TIME + r) + 1 := by omega
      rw [e, run_silent_succ]
      obtain ⟨a', b', c', d'⟩ := round_waiting cfg _ a hW (by rw [b]; exact hrW)
      exact ⟨a', by rw [b', b], by rw [c', c], by rw [d', d]⟩
  | succ q ihq =>
    intro r hq
    induction r with
    | zero =>
      intro hW0
      obtain ⟨a, b, c, d⟩ := ihq (cfg.MDNS_WAIT_TIME - 1) (by omega) (by omega)
      have e : (q + 1) * cfg.MDNS_WAIT_TIME + 0 =
          (q * cfg.MDNS_WAIT_TIME + (cfg.MDNS_WAIT_TIME - 1)) + 1 := by
        rw [Nat.succ_mul]; omega
      rw [e, run_silent_succ]
      obtain ⟨a', b', c', d'⟩ := round_retry cfg _ a hW (by rw [b]; omega) (by rw [c]; omega) hM
      exact ⟨a', b', by rw [c', c], by rw [d', d]; omega⟩
    | succ r ih =>
      intro hrW
      obtain ⟨a, b, c, d⟩ := ih (by omega)
      have e : (q + 1) * cfg.MDNS_WAIT_TIME + (r + 1) =
          ((q + 1) * cfg.MDNS_WAIT_TIME + r) + 1 := by omega
      rw [e, run_silent_succ]
      obtain ⟨a', b', c', d'⟩ := round_waiting cfg _ a hW (by rw [b]; exact hrW)
      exact ⟨a', by rw [b', b], by rw [c', c], by rw [d', d]⟩

/-- A silent round with a wait threshold of one tick and a retry maximum
above 255: the `uint8_t` retry counter stays below the maximum and the
session keeps waiting. -/
theorem round_retry_wraps (cfg : Config) (s : Session) (hret : s.ret = none)
    (hW : cfg.MDNS_WAIT_TIME = 1) (hM : 256 ≤ cfg.MAX_MDNS_RETRY)
    (ht : s.mdns_1s_tick = 0) (hr : s.retry_count < 256) :
    (step cfg (step cfg s Event.tick) (Event.poll 0 [])).ret = none ∧
      (step cfg (step cfg s Event.tick) (Event.poll 0 [])).mdns_1s_tick = 0 ∧
      (step cfg (step cfg s Event.tick) (Event.poll 0 [])).retry_count < 256 := by
  have hn : ¬ cfg.MAX_MDNS_RETRY ≤ s.retry_count := by omega
  have hlt : (s.retry_count + 1) % 256 < 256 := Nat.mod_lt _ (by omega)
  simp [step, hret, MDNS_run_poll, check_MDNS_timeout, hW, ht, hn, hlt]

/-- With a retry maximum of 256 the `uint8_t` retry counter never reaches
it: however many silent ticks go by, the session keeps waiting. -/
theorem retry256_never_times_out (n : Nat) :
    (run cfg_retry256 (start_local cfg_retry256) (silent_ticks n)).ret = none ∧
      (run cfg_retry256 (start_local cfg_retry256) (silent_ticks n)).mdns_1s_tick = 0 ∧
      (run cfg_retry256 (start_local cfg_retry256) (silent_ticks n)).retry_count < 256 := by
  induction n with
  | zero => decide
  | succ n ih =>
    obtain ⟨a, b, c⟩ := ih
    rw [run_silent_succ]
    exact round_retry_wraps cfg_retry256 _ a rfl (by decide) b c

/-- With a wait threshold of `2^32` or more the `uint32_t` tick counter
never reaches it: a waiting session keeps waiting through any number of
silent ticks. -/
theorem wait_2_32_never_times_out (cfg : Config) (hW : 4294967296 ≤ cfg.MDNS_WAIT_TIME)
    (s : Session) (hret : s.ret = none) (n : Nat) :
    (run cfg s (silent_ticks n)).ret = none := by
  induction n with
  | zero => simpa [run, silent_ticks] using hret
  | succ n ih =>
    rw [run_silent_succ]
    have hlt : ((run cfg s (silent_ticks n)).mdns_1s_tick + 1) % 4294967296 < 4294967296 :=
      Nat.mod_lt _ (by omega)
    have hn : ¬ cfg.MDNS_WAIT_TIME ≤
        ((run cfg s (silent_ticks n)).mdns_1s_tick + 1) % 4294967296 := by omega
    simp [step, ih, MDNS_run_poll, check_MDNS_timeout, hn]

/-- C5, as stated, fails for a retry maximum that the `uint8_t` retry counter
can not reach and for a wait threshold that the `uint32_t` tick counter
can not reach: with `W = 1` and `M = 256`, started freshly with one query
sent, the session has not reported a timeout when `(M+1)*W = 257` ticks
have been fed, and with `W = 2^32` and `M = 0` it has not when
`(M+1)*W = 2^32` ticks have been fed. -/
theorem timeout_bound_fails_retry256 :
    ((start_local cfg_retry256).ret = none ∧
      (start_local cfg_retry256).retry_count = 0 ∧
      (start_local cfg_retry256).mdns_1s_tick = 0 ∧
      sends (start_local cfg_retry256) = 1 ∧
      (run cfg_retry256 (start_local cfg_retry256)
        (silent_ticks ((cfg_retry256.MAX_MDNS_RETRY + 1) * cfg_retry256.MDNS_WAIT_TIME))).ret =
          none) ∧
    ((start_local cfg_wait_2_32).ret = none ∧
      (start_local cfg_wait_2_32).retry_count = 0 ∧
      (start_local cfg_wait_2_32).mdns_1s_tick = 0 ∧
      sends (start_local cfg_wait_2_32) = 1 ∧
      (run cfg_wait_2_32 (start_local cfg_wait_2_32)
        (silent_ticks ((cfg_wait_2_32.MAX_MDNS_RETRY + 1) * cfg_wait_2_32.MDNS_WAIT_TIME))).ret =
          none) :=
  ⟨⟨by decide, by decide, by decide, by decide, (retry256_never_times_out _).1⟩,
    ⟨by decide, by decide, by decide, by decide,
      wait_2_32_never_times_out cfg_wait_2_32 (by decide) _ (by decide) _⟩⟩

/-- C5, amended. For every wait threshold `W` with `1 ≤ W < 2^32` and every
retry maximum `M ≤ 255`, starting from a freshly started session (retry
and tick counters zero, one initial query sent), if no datagram ever
arrives and `check_MDNS_timeout` is evaluated after every tick, then
`MDNS_run` returns for timeout exactly when `(M+1)*W` ticks have been fed
and not earlier, and `sendto` has then been called exactly `M+1` times in
total (once at the start and once at each of the `M` retries). -/
theorem timeout_after_retries (cfg : Config) (s : Session)
    (hW1 : 1 ≤ cfg.MDNS_WAIT_TIME) (hW : cfg.MDNS_WAIT_TIME < 4294967296)
    (hM : cfg.MAX_MDNS_RETRY ≤ 255)
    (hret : s.ret = none) (ht : s.mdns_1s_tick = 0) (hr : s.retry_count = 0)
    (hs : sends s = 1) :
    (∀ n, n < (cfg.MAX_MDNS_RETRY + 1) * cfg.MDNS_WAIT_TIME →
        (run cfg s (silent_ticks n)).ret = none) ∧
      (run cfg s (silent_ticks ((cfg.MAX_MDNS_RETRY + 1) * cfg.MDNS_WAIT_TIME))).ret = some 0 ∧
      sends (run cfg s (silent_ticks ((cfg.MAX_MDNS_RETRY + 1) * cfg.MDNS_WAIT_TIME))) =
        cfg.MAX_MDNS_RETRY + 1 := by
  have key := run_silent_state cfg s hW hM hret ht hr
  constructor
  · intro n hn
    have hq : n / cfg.MDNS_WAIT_TIME ≤ cfg.MAX_MDNS_RETRY := by
      have := (Nat.div_lt_iff_lt_mul (by omega)).2 hn
      omega
    have hmod : n % cfg.MDNS_WAIT_TIME < cfg.MDNS_WAIT_TIME := Nat.mod_lt _ (by omega)
    have := (key (n / cfg.MDNS_WAIT_TIME) (n % cfg.MDNS_WAIT_TIME) hq hmod).1
    rwa [Nat.div_add_mod'] at this
  · obtain ⟨a, b, c, d⟩ := key cfg.MAX_MDNS_RETRY (cfg.MDNS_WAIT_TIME - 1) (le_refl _) (by omega)
    have e : (cfg.MAX_MDNS_RETRY + 1) * cfg.MDNS_WAIT_TIME =
        (cfg.MAX_MDNS_RETRY * cfg.MDNS_WAIT_TIME + (cfg.MDNS_WAIT_TIME - 1)) + 1 := by
      rw [Nat.succ_mul]; omega
    rw [e, run_silent_succ]
    obtain ⟨a', _, _, d'⟩ := round_timeout cfg _ a hW (by rw [b]; omega) (by rw [c])
    exact ⟨a', by rw [d', d, hs]; omega⟩

/-- Witness for the amended C5: `W = 2000` and `M = 3` give the timeout
after `3*2000 + 2000 = 8000` ticks, with 4 calls of `sendto`. -/
theorem timeout_after_retries_witness :
    (1 ≤ cfg_2000_3.MDNS_WAIT_TIME ∧ cfg_2000_3.MDNS_WAIT_TIME < 4294967296 ∧
      cfg_2000_3.MAX_MDNS_RETRY ≤ 255 ∧ (start_local cfg_2000_3).ret = none ∧
      (start_local cfg_2000_3).mdns_1s_tick = 0 ∧ (start_local cfg_2000_3).retry_count = 0 ∧
      sends (start_local cfg_2000_3) = 1) ∧
    ((∀ n, n < (3 + 1) * 2000 →
        (run cfg_2000_3 (start_local cfg_2000_3) (silent_ticks n)).ret = none) ∧
      (run cfg_2000_3 (start_local cfg_2000_3) (silent_ticks ((3 + 1) * 2000))).ret = some 0 ∧
      sends (run cfg_2000_3 (start_local cfg_2000_3) (silent_ticks ((3 + 1) * 2000))) = 3 + 1) :=
  ⟨by decide,
    timeout_after_retries cfg_2000_3 (start_local cfg_2000_3) (by decide) (by decide)
      (by decide) (by decide) (by decide) (by decide) (by decide)⟩

/-- C7 fails on the code. In the session `session_local` (wait threshold one
tick, one retry) the first `sendto` carries the 23 bytes of the query;
after one silent tick the retry calls `sendto` with the length that
`getSn_RX_RSR` has just stored in `len`, which is 0: the retransmitted
datagram is empty, not the query. -/
theorem retry_sends_empty_datagram :
    (mdns_makequery name_local).2.length = 23 ∧
      (run cfg_small session_local (silent_ticks 1)).calls =
        [Call.socket,
          Call.sendto (mdns_makequery name_local).2 23 mdns_ip 5353,
          Call.sendto [] 0 mdns_ip 5353] := by
  decide

/-- Every `sendto` that a pass of the loop of `MDNS_run` makes has the
length 0 and carries no byte, whatever the query was. -/
theorem retry_send_is_empty (cfg : Config) (s : Session) (rsr : Nat) (dgram data ip : List Nat)
    (len port : Nat)
    (h : (MDNS_run_poll cfg s rsr dgram).calls = s.calls ++ [Call.sendto data len ip port]) :
    len = 0 ∧ data = [] := by
  simp only [MDNS_run_poll] at h
  split at h
  · simp at h
  · rename_i hz
    have hz' : rsr % 65536 = 0 := by omega
    split at h
    · simp at h
    · split at h
      · simp only [List.append_cancel_left_eq, List.cons.injEq, Call.sendto.injEq, and_true] at h
        obtain ⟨hd, hl, _⟩ := h
        rw [hz'] at hd hl
        exact ⟨hl.symm, by rw [← hd]; rfl⟩
      · have := congrArg List.length h
        simp at this

/-! ## Termination and the output buffer of `parse_name` -/

/-- A result of the loop of `parse_name` is not changed by more fuel. -/
theorem parse_name_loop_mono (msg : Nat → Nat) :
    ∀ (fuel k cp : Nat) (len clen : Int) (ind : Bool) (nseg : Nat) (buf : List Nat)
      (r : Int × List Nat),
      parse_name_loop msg fuel cp len clen ind nseg buf = some r →
      parse_name_loop msg (fuel + k) cp len clen ind nseg buf = some r := by
  intro fuel
  induction fuel with
  | zero => intro k cp len clen ind nseg buf r h; simp [parse_name_loop] at h
  | succ f ih =>
    intro k cp len clen ind nseg buf r h
    have e : f + 1 + k = (f + k) + 1 := by omega
    rw [e, parse_name_loop_succ]
    rw [parse_name_loop_succ] at h
    by_cases hs : seg_len msg cp = 0
    · rw [if_pos hs] at h ⊢
      exact h
    · rw [if_neg hs] at h ⊢
      by_cases hneg : wrap16 (len - ((seg_len msg cp : Int) + 1)) < 0
      · rw [if_pos hneg] at h ⊢
        exact h
      · rw [if_neg hneg] at h ⊢
        exact ih k _ _ _ _ _ _ r h

/-- C18. For every message content, every start offset and every output
limit `len` with `0 ≤ len` (a 16-bit signed value, so at most 32767), the
loop of `parse_name` finishes after at most `floor(len/2) + 1` iterations,
with the result of `parse_name`, whatever the pointers in the message do;
and for every 16-bit `len`, negative ones included, it finishes within
16385 iterations. -/
theorem parse_name_terminates :
    (∀ (msg : Nat → Nat) (cp : Nat) (len : Int), 0 ≤ len → len ≤ 32767 →
        parse_name_loop msg (len.toNat / 2 + 1) cp len 0 false 0 [] =
          some (parse_name msg cp len)) ∧
    (∀ (msg : Nat → Nat) (cp : Nat) (len : Int), -32768 ≤ len → len ≤ 32767 →
        parse_name_loop msg 16385 cp len 0 false 0 [] = some (parse_name msg cp len)) := by
  constructor
  · intro msg cp len h0 h1
    obtain ⟨r, hr, _⟩ := parse_name_loop_spec msg (len.toNat / 2 + 1) cp len 0 false 0 []
      h0 h1 (by omega) (le_refl 0)
    have hm := parse_name_loop_mono msg (len.toNat / 2 + 1) (16385 - (len.toNat / 2 + 1))
      cp len 0 false 0 [] r hr
    have e : len.toNat / 2 + 1 + (16385 - (len.toNat / 2 + 1)) = 16385 := by omega
    have he := parse_name_eq_loop msg cp len
    rw [wrap16_of_range len (by omega) h1] at he
    rw [e, he] at hm
    rw [hr, ← Option.some.inj hm]
  · intro msg cp len h0 h1
    have he := parse_name_eq_loop msg cp len
    rwa [wrap16_of_range len h0 h1] at he

/-- Witness for C18: in `msg_cycle` the pointer leads back to the label it
follows; with a limit of 24 the loop returns `-1` in its 13th iteration,
and 12 iterations are not enough. -/
theorem parse_name_terminates_witness :
    ((0 : Int) ≤ 24 ∧ (24 : Int) ≤ 32767 ∧
      parse_name_loop (ofBytes msg_cycle) ((24 : Int).toNat / 2 + 1) 0 24 0 false 0 [] =
        some (parse_name (ofBytes msg_cycle) 0 24)) ∧
    parse_name_loop (ofBytes msg_cycle) 12 0 24 0 false 0 [] = none ∧
    (parse_name (ofBytes msg_cycle) 0 24).1 = -1 ∧
    ((-32768 : Int) ≤ -5 ∧ (-5 : Int) ≤ 32767 ∧
      parse_name_loop (ofBytes msg_cycle) 16385 0 (-5) 0 false 0 [] =
        some (parse_name (ofBytes msg_cycle) 0 (-5))) :=
  ⟨⟨by decide, by decide,
      parse_name_terminates.1 (ofBytes msg_cycle) 0 24 (by decide) (by decide)⟩,
    by decide, by decide,
    ⟨by decide, by decide,
      parse_name_terminates.2 (ofBytes msg_cycle) 0 (-5) (by decide) (by decide)⟩⟩

/-- The bytes that the loop of `parse_name` has written when it returns a
consumed length: at most the budget it was entered with and two more. -/
theorem parse_name_loop_written (msg : Nat → Nat) :
    ∀ (fuel cp : Nat) (len clen : Int) (ind : Bool) (nseg : Nat) (buf : List Nat)
      (r : Int × List Nat), 0 ≤ len → len ≤ 32767 → 0 ≤ clen →
      parse_name_loop msg fuel cp len clen ind nseg buf = some r → r.1 ≠ -1 →
      (r.2.length : Int) ≤ buf.length + len + 2 := by
  intro fuel
  induction fuel with
  | zero => intro cp len clen ind nseg buf r _ _ _ h; simp [parse_name_loop] at h
  | succ f ih =>
    intro cp len clen ind nseg buf r h0 h1 hc h hne
    rw [parse_name_loop_succ] at h
    have hlt := seg_len_lt msg cp
    split at h
    · rw [Option.some.injEq] at h
      rw [← h]
      simp only [parse_name_finish]
      split_ifs <;> simp <;> omega
    · rw [wrap16_of_range _ (by omega) (by omega)] at h
      split at h
      · rw [Option.some.injEq] at h
        rw [← h] at hne
        exact absurd rfl hne
      · have := ih _ _ _ _ _ _ r (by omega) (by omega) (by split_ifs <;> omega) h hne
        simp [bytesAt] at this
        omega

/-- The bytes written by a `parse_name` that returns a consumed length are
at most two more than the limit it was given. -/
theorem parse_name_written (msg : Nat → Nat) (cp : Nat) (len : Int) (h0 : 0 ≤ len)
    (h1 : len ≤ 32767) (hne : (parse_name msg cp len).1 ≠ -1) :
    ((parse_name msg cp len).2.length : Int) ≤ len + 2 := by
  have he := parse_name_eq_loop msg cp len
  rw [wrap16_of_range len (by omega) h1] at he
  have := parse_name_loop_written msg 16385 cp len 0 false 0 [] _ h0 h1 (le_refl 0) he hne
  simpa using this

/-- C14 fails on the code. The name of the query for `local` needs 6 bytes
with its dot; called with `len = 6`, `parse_name` returns 7 (not `-1`) and
has written 7 bytes, the dotted name and the closing NUL; and for the
root name with `len = 0` it returns 1 and has written 2 bytes. -/
theorem parse_name_writes_past_len :
    parse_name (ofBytes (mdns_makequery name_local).2) 12 6 =
        (7, [108, 111, 99, 97, 108, 46, 0]) ∧
      (6 : Int) < (parse_name (ofBytes (mdns_makequery name_local).2) 12 6).2.length ∧
      parse_name (ofBytes [0]) 0 0 = (1, [46, 0]) ∧
      (0 : Int) < (parse_name (ofBytes [0]) 0 0).2.length := by
  decide

/-! ## Release of the socket -/

/-- C17 fails on the code. When `socket` succeeds and the first `sendto`
returns an error, `MDNS_run` returns that error after the two calls
`socket` and `sendto`: there is no `close`, and none follows. -/
theorem send_failure_leaves_socket_open :
    session_send_failed.ret = some (-1) ∧
      session_send_failed.calls =
        [Call.socket, Call.sendto (mdns_makequery name_local).2 23 mdns_ip 5353] ∧
      Call.close ∉ session_send_failed.calls ∧
      Call.close ∉ (run cfg_small session_send_failed
        [Event.tick, Event.poll 0 [], Event.poll 43 reply_www]).calls := by
  decide

/-- The part of C17 that holds on the code: a pass of the loop that makes
`MDNS_run` return ends with the call of `close`, and once `MDNS_run` has
returned no further call is made. -/
theorem loop_return_closes (cfg : Config) (s : Session) (e : Event) :
    (s.ret = none → (step cfg s e).ret ≠ none →
        (step cfg s e).calls.getLast? = some Call.close) ∧
      (s.ret ≠ none → (step cfg s e).calls = s.calls) := by
  constructor
  · intro hret hne
    cases e with
    | tick => simp [step, hret] at hne
    | poll rsr dgram =>
      simp only [step, hret, MDNS_run_poll] at hne ⊢
      split
      · simp
      · split
        · simp
        · rename_i h1 h2
          simp only [h1, h2, if_false] at hne
          split at hne <;> simp [hret] at hne
  · intro hret
    cases e with
    | tick => simp [step]
    | poll rsr dgram =>
      cases h : s.ret with
      | none => exact absurd h hret
      | some v => simp [step, h]

/-! ## Failure of the record walk, skipping of records, the header -/

theorem question_loop_none_iff (D : Nat) (msg : Nat → Nat) :
    ∀ (n cp : Nat), question_loop D msg n cp = none ↔
      ∃ c ∈ question_starts D msg n cp, mdns_question D msg c = none := by
  intro n
  induction n with
  | zero => intro cp; simp [question_loop, question_starts]
  | succ n ih =>
    intro cp
    simp only [question_loop, question_starts]
    cases h : mdns_question D msg cp with
    | none => simp [h]
    | some c =>
      simp only [List.mem_cons, exists_eq_or_imp, h, false_or]
      rw [ih c]
      simp

theorem answer_loop_none_iff (D : Nat) (msg : Nat → Nat) :
    ∀ (n cp : Nat) (ip : List Nat), (answer_loop D msg n cp ip).1 = none ↔
      ∃ c ∈ answer_starts D msg n cp, (mdns_answer D msg c []).1 = none := by
  intro n
  induction n with
  | zero => intro cp ip; simp [answer_loop, answer_starts]
  | succ n ih =>
    intro cp ip
    have hc := mdns_answer_cursor D msg cp ip []
    simp only [answer_loop, answer_starts]
    rcases hm : mdns_answer D msg cp ip with ⟨o, ipa⟩
    rw [hm] at hc
    simp only at hc
    cases o with
    | none => simp [← hc]
    | some c =>
      simp only [List.mem_cons, exists_eq_or_imp, ← hc, false_or]
      rw [ih c ipa]
      simp

/-- C12. `parseMDNSMSG` returns the abort value `-1` if and only if
`mdns_question` fails on one of the question records walked (at most
`qdcount`, in order, up to the first failure) or, the questions having
parsed, `mdns_answer` fails on one of the answer records walked (at most
`ancount`); the response code does not enter, and when no record fails the
value is 0 or 1. -/
theorem parseMDNSMSG_abort_iff (D : Nat) (msg : Nat → Nat) (ip : List Nat) :
    ((parseMDNSMSG D msg ip).1 = -1 ↔
      (∃ c ∈ question_starts D msg (get16 msg 4) 12, mdns_question D msg c = none) ∨
      (∃ cq, question_loop D msg (get16 msg 4) 12 = some cq ∧
        ∃ c ∈ answer_starts D msg (get16 msg 6) cq, (mdns_answer D msg c ip).1 = none)) ∧
    ((parseMDNSMSG D msg ip).1 ≠ -1 →
      (parseMDNSMSG D msg ip).1 = 0 ∨ (parseMDNSMSG D msg ip).1 = 1) := by
  constructor
  · have hq : (parse_header msg).qdcount = get16 msg 4 := rfl
    have ha : (parse_header msg).ancount = get16 msg 6 := rfl
    have hcur : ∀ c, (mdns_answer D msg c ip).1 = (mdns_answer D msg c []).1 :=
      fun c => mdns_answer_cursor D msg c ip []
    simp only [hcur]
    rw [← question_loop_none_iff]
    simp only [parseMDNSMSG, hq, ha]
    cases hql : question_loop D msg (get16 msg 4) 12 with
    | none => simp
    | some cq =>
      simp only [false_or, Option.some.injEq, exists_eq_left', reduceCtorEq]
      rw [← answer_loop_none_iff D msg (get16 msg 6) cq ip]
      rcases hal : answer_loop D msg (get16 msg 6) cq ip with ⟨o, ipa⟩
      cases o with
      | none => simp
      | some c =>
        simp only [reduceCtorEq, iff_false]
        split_ifs <;> decide
  · intro hne
    rcases parseMDNSMSG_ret D msg ip with h | ⟨h, _⟩ | ⟨h, _⟩
    · exact absurd h hne
    · exact Or.inr h
    · exact Or.inl h

/-- C13. For every answer record whose owner name decodes with consumed
length `n` and whose type is not A, `mdns_answer` returns the cursor
advanced by `n + 10 + p`, `p` being the skip of the payload for the type
(`rdata_skip`), and fails when an embedded name of the payload does not
decode; it fails as well when the owner name does not decode; and in all
these cases the address cells are left as they were. -/
theorem mdns_answer_skip (D : Nat) (msg : Nat → Nat) (cp : Nat) (ip_from_mdns : List Nat) :
    ((parse_name msg cp (MAXCNAME D)).1 = -1 →
        mdns_answer D msg cp ip_from_mdns = (none, ip_from_mdns)) ∧
    (∀ n : Nat, (parse_name msg cp (MAXCNAME D)).1 = (n : Int) → get16 msg (cp + n) ≠ 1 →
        mdns_answer D msg cp ip_from_mdns =
          ((rdata_skip D msg (get16 msg (cp + n)) (cp + n + 10)).map (fun p => cp + n + 10 + p),
            ip_from_mdns)) := by
  constructor
  · intro h
    simp [mdns_answer, h]
  · intro n hname htype
    have hne : ¬ ((n : Int) = -1) := by omega
    have e10 : cp + n + 2 + 2 + 4 + 2 = cp + n + 10 := by omega
    simp only [mdns_answer, hname, hne, if_false, Int.toNat_ofNat, mdns_answer_rdata, htype, e10,
      rdata_skip, skip_name, name_len]
    generalize get16 msg (cp + n) = t
    by_cases h1 : t = 5 ∨ t = 7 ∨ t = 8 ∨ t = 9 ∨ t = 2 ∨ t = 12
    · have h1' : t = 5 ∨ t = 2 ∨ t = 12 ∨ t = 7 ∨ t = 8 ∨ t = 9 := by omega
      rw [if_pos h1, if_pos h1']
      split_ifs <;> simp
    · have h1' : ¬ (t = 5 ∨ t = 2 ∨ t = 12 ∨ t = 7 ∨ t = 8 ∨ t = 9) := by omega
      rw [if_neg h1, if_neg h1']
      by_cases h2 : t = 13
      · simp only [h2, if_true, Option.map_some']
        congr 2
        omega
      · rw [if_neg h2, if_neg h2]
        by_cases h3 : t = 15
        · have e : cp + n + 10 + 2 = cp + n + 10 + 2 := rfl
          simp only [h3, if_true]
          split_ifs <;> simp
          omega
        · rw [if_neg h3, if_neg h3]
          by_cases h4 : t = 6
          · simp only [h4, if_true]
            by_cases ha : (parse_name msg (cp + n + 10) (MAXCNAME D)).1 = -1
            · simp [ha]
            · simp only [ha, if_false]
              by_cases hb : (parse_name msg (cp + n + 10 +
                  (parse_name msg (cp + n + 10) (MAXCNAME D)).1.toNat) (MAXCNAME D)).1 = -1
              · simp [hb]
              · simp only [hb, if_false, Option.map_some']
                congr 2
                omega
          · simp [h4]

/-- Witness for C13: the CNAME answer of `reply_cname` has a 5-byte owner
name and a 2-byte payload, the pointer; the cursor goes from 12 to 29
and the address cells are untouched. -/
theorem mdns_answer_skip_witness :
    (parse_name (ofBytes reply_cname) 12 (MAXCNAME 16)).1 = ((5 : Nat) : Int) ∧
      get16 (ofBytes reply_cname) (12 + 5) ≠ 1 ∧
      mdns_answer 16 (ofBytes reply_cname) 12 [9, 9, 9, 9] =
        ((rdata_skip 16 (ofBytes reply_cname) (get16 (ofBytes reply_cname) (12 + 5))
            (12 + 5 + 10)).map (fun p => 12 + 5 + 10 + p), [9, 9, 9, 9]) ∧
      mdns_answer 16 (ofBytes reply_cname) 12 [9, 9, 9, 9] = (some 29, [9, 9, 9, 9]) ∧
      ((parse_name (ofBytes msg_cycle) 0 (MAXCNAME 16)).1 = -1 ∧
        mdns_answer 16 (ofBytes msg_cycle) 0 [9, 9, 9, 9] = (none, [9, 9, 9, 9])) :=
  ⟨by decide, by decide,
    (mdns_answer_skip 16 (ofBytes reply_cname) 12 [9, 9, 9, 9]).2 5 (by decide) (by decide),
    by decide,
    by decide,
    (mdns_answer_skip 16 (ofBytes msg_cycle) 0 [9, 9, 9, 9]).1 (by decide)⟩

theorem get16_eq (msg : Nat → Nat) (s : Nat) :
    get16 msg s = rd msg s * 256 + rd msg (s + 1) := by
  have h0 := rd_lt msg s
  have h1 := rd_lt msg (s + 1)
  simp only [get16, Nat.shiftLeft_eq]
  omega

theorem flag_bit (w k m : Nat) (hm : m = 2 ^ k) :
    (if w &&& m ≠ 0 then 1 else 0) = w / m % 2 := by
  subst hm
  rw [Nat.and_two_pow, Nat.testBit_to_div_mod]
  have hpos : 0 < 2 ^ k := Nat.two_pow_pos k
  by_cases h : w / 2 ^ k % 2 = 1
  · simp [h]
  · have h0 : w / 2 ^ k % 2 = 0 := by omega
    simp [h0]

theorem parseMDNSMSG_dhdr (D : Nat) (msg : Nat → Nat) (ip : List Nat) :
    (parseMDNSMSG D msg ip).2.1 = parse_header msg := by
  simp only [parseMDNSMSG]
  split
  · rfl
  · split <;> rfl

/-- C16. For every reply buffer `parseMDNSMSG` fills the header so that `id`,
`qdcount`, `ancount`, `nscount` and `arcount` are the big-endian 16-bit
values at byte offsets 0, 4, 6, 8 and 10, and, with `w` the big-endian
flags word at offset 2, `qr` is bit 15 of `w`, `opcode` bits 14..11, `aa`
bit 10, `tc` bit 9, `rd` bit 8, `ra` bit 7 and `rcode` bits 3..0; hence
`w = qr*32768 + opcode*2048 + aa*1024 + tc*512 + rd*256 + ra*128 + z*16 + rcode`
with `z < 8`, every one-bit field in `{0, 1}` and `opcode`, `rcode` below 16. -/
theorem parseMDNSMSG_header (D : Nat) (msg : Nat → Nat) (ip : List Nat) :
    (parseMDNSMSG D msg ip).2.1.id = rd msg 0 * 256 + rd msg 1 ∧
    (parseMDNSMSG D msg ip).2.1.qdcount = rd msg 4 * 256 + rd msg 5 ∧
    (parseMDNSMSG D msg ip).2.1.ancount = rd msg 6 * 256 + rd msg 7 ∧
    (parseMDNSMSG D msg ip).2.1.nscount = rd msg 8 * 256 + rd msg 9 ∧
    (parseMDNSMSG D msg ip).2.1.arcount = rd msg 10 * 256 + rd msg 11 ∧
    (parseMDNSMSG D msg ip).2.1.qr = (rd msg 2 * 256 + rd msg 3) / 32768 % 2 ∧
    (parseMDNSMSG D msg ip).2.1.opcode = (rd msg 2 * 256 + rd msg 3) / 2048 % 16 ∧
    (parseMDNSMSG D msg ip).2.1.aa = (rd msg 2 * 256 + rd msg 3) / 1024 % 2 ∧
    (parseMDNSMSG D msg ip).2.1.tc = (rd msg 2 * 256 + rd msg 3) / 512 % 2 ∧
    (parseMDNSMSG D msg ip).2.1.rd = (rd msg 2 * 256 + rd msg 3) / 256 % 2 ∧
    (parseMDNSMSG D msg ip).2.1.ra = (rd msg 2 * 256 + rd msg 3) / 128 % 2 ∧
    (parseMDNSMSG D msg ip).2.1.rcode = (rd msg 2 * 256 + rd msg 3) % 16 ∧
    rd msg 2 * 256 + rd msg 3 =
      (parseMDNSMSG D msg ip).2.1.qr * 32768 + (parseMDNSMSG D msg ip).2.1.opcode * 2048 +
        (parseMDNSMSG D msg ip).2.1.aa * 1024 + (parseMDNSMSG D msg ip).2.1.tc * 512 +
        (parseMDNSMSG D msg ip).2.1.rd * 256 + (parseMDNSMSG D msg ip).2.1.ra * 128 +
        ((rd msg 2 * 256 + rd msg 3) / 16 % 8) * 16 + (parseMDNSMSG D msg ip).2.1.rcode := by
  have h2 := rd_lt msg 2
  have h3 := rd_lt msg 3
  have hw : get16 msg 2 = rd msg 2 * 256 + rd msg 3 := get16_eq msg 2
  have h0 : get16 msg 0 = rd msg 0 * 256 + rd msg 1 := get16_eq msg 0
  have h4 : get16 msg 4 = rd msg 4 * 256 + rd msg 5 := get16_eq msg 4
  have h6 : get16 msg 6 = rd msg 6 * 256 + rd msg 7 := get16_eq msg 6
  have h8 : get16 msg 8 = rd msg 8 * 256 + rd msg 9 := get16_eq msg 8
  have h10 : get16 msg 10 = rd msg 10 * 256 + rd msg 11 := get16_eq msg 10
  have e15 : (if get16 msg 2 &&& 0x8000 ≠ 0 then 1 else 0) = get16 msg 2 / 32768 % 2 :=
    flag_bit (get16 msg 2) 15 0x8000 (by norm_num)
  have e10 : (if get16 msg 2 &&& 0x0400 ≠ 0 then 1 else 0) = get16 msg 2 / 1024 % 2 :=
    flag_bit (get16 msg 2) 10 0x0400 (by norm_num)
  have e9 : (if get16 msg 2 &&& 0x0200 ≠ 0 then 1 else 0) = get16 msg 2 / 512 % 2 :=
    flag_bit (get16 msg 2) 9 0x0200 (by norm_num)
  have e8 : (if get16 msg 2 &&& 0x0100 ≠ 0 then 1 else 0) = get16 msg 2 / 256 % 2 :=
    flag_bit (get16 msg 2) 8 0x0100 (by norm_num)
  have e7 : (if get16 msg 2 &&& 0x0080 ≠ 0 then 1 else 0) = get16 msg 2 / 128 % 2 :=
    flag_bit (get16 msg 2) 7 0x0080 (by norm_num)
  have eop : (get16 msg 2 >>> 11) &&& 0xf = get16 msg 2 / 2048 % 16 := by
    rw [Nat.shiftRight_eq_div_pow]
    exact Nat.and_pow_two_sub_one_eq_mod _ 4
  have erc : get16 msg 2 &&& 0xf = get16 msg 2 % 16 := Nat.and_pow_two_sub_one_eq_mod _ 4
  rw [parseMDNSMSG_dhdr]
  simp only [parse_header]
  rw [e15, e10, e9, e8, e7, eop, erc, h0, h4, h6, h8, h10, hw]
  refine ⟨rfl, rfl, rfl, rfl, rfl, rfl, rfl, rfl, rfl, rfl, rfl, rfl, ?_⟩
  have hlt : rd msg 2 * 256 + rd msg 3 < 65536 := by omega
  generalize rd msg 2 * 256 + rd msg 3 = w at hlt ⊢
  have k1 : w = w / 16 * 16 + w % 16 := by omega
  have k2 : w / 16 = w / 128 * 8 + w / 16 % 8 := by omega
  have k3 : w / 128 = w / 256 * 2 + w / 128 % 2 := by omega
  have k4 : w / 256 = w / 512 * 2 + w / 256 % 2 := by omega
  have k5 : w / 512 = w / 1024 * 2 + w / 512 % 2 := by omega
  have k6 : w / 1024 = w / 2048 * 2 + w / 1024 % 2 := by omega
  have k7 : w / 2048 = w / 32768 * 16 + w / 2048 % 16 := by omega
  have k8 : w / 32768 = w / 32768 % 2 := by omega
  linarith

/-! ## Names with empty components -/

theorem dotted_component_ne_zero :
    ∀ (cs : List (List Nat)), (∀ l ∈ cs, valid_component l) → ∀ b ∈ dotted cs, b ≠ 0 := by
  intro cs
  induction cs with
  | nil => intro _ b hb; simp [dotted] at hb
  | cons l cs ih =>
    intro hv b hb
    have hl := hv l (List.mem_cons_self l cs)
    cases cs with
    | nil =>
      simp only [dotted] at hb
      have := (hl.2 b hb).1
      omega
    | cons m cs =>
      rw [dotted_cons_cons] at hb
      rcases List.mem_append.1 hb with h | h
      · have := (hl.2 b h).1
        omega
      · rcases List.mem_cons.1 h with h | h
        · omega
        · exact ih (fun x hx => hv x (List.mem_cons_of_mem l hx)) b h

theorem leading_components_nil_cons (ls : List (List Nat)) :
    leading_components ([] :: ls) = [] := by
  simp [leading_components, List.takeWhile]

theorem leading_components_cons (l : List Nat) (ls : List (List Nat)) (h : l ≠ []) :
    leading_components (l :: ls) = l :: leading_components ls := by
  cases l with
  | nil => exact absurd rfl h
  | cons a l => simp [leading_components, List.takeWhile]

/-- On a dotted name of valid components the loop of `mdns_makequery` writes
the components before the first empty one, each behind its length byte,
and one closing zero byte. -/
theorem makequery_loop_components :
    ∀ (ls : List (List Nat)) (l : List Nat) (fuel dlen : Nat) (out : List Nat),
      valid_component l → (∀ m ∈ ls, valid_component m) →
      (dotted (l :: ls)).length < fuel →
      dlen = (dotted (l :: ls)).length % 65536 →
      makequery_loop fuel (dotted (l :: ls)) dlen out =
        some (out ++ encode_labels (leading_components (l :: ls))) := by
  intro ls
  induction ls with
  | nil =>
    intro l fuel dlen out hl _ hf hd
    obtain ⟨h63, hb⟩ := hl
    cases fuel with
    | zero => omega
    | succ f =>
      have hnone : strchr l 46 = none := strchr_none l 46 (fun b hb' => (hb b hb').2.2)
      have hd' : dlen = l.length := by
        rw [hd]; simp only [dotted]; omega
      by_cases hemp : l = []
      · subst hemp
        simp [makequery_loop, dotted, strchr, hd, leading_components_nil_cons, encode_labels]
      · have hne : ¬ l.length = 0 := fun h => hemp (List.length_eq_zero.1 h)
        have hmod : l.length % 256 = l.length := Nat.mod_eq_of_lt (by omega)
        rw [leading_components_cons l [] hemp]
        simp [makequery_loop, dotted, hnone, hd', hne, hmod, strncpy, encode_labels,
          leading_components]
  | cons m ls ih =>
    intro l fuel dlen out hl hls hf hd
    obtain ⟨h63, hb⟩ := hl
    cases fuel with
    | zero => omega
    | succ f =>
      rw [dotted_cons_cons] at hf hd ⊢
      have hsome : strchr (l ++ 46 :: dotted (m :: ls)) 46 = some l.length :=
        strchr_append l _ 46 (fun b hb' => (hb b hb').2.2)
      have hm16 : l.length % 65536 = l.length := by omega
      by_cases hemp : l = []
      · subst hemp
        simp [makequery_loop, strchr, leading_components_nil_cons, encode_labels]
      · have hne : ¬ l.length = 0 := fun h => hemp (List.length_eq_zero.1 h)
        have hmod : l.length % 256 = l.length := by omega
        simp only [List.length_append, List.length_cons] at hf hd
        have hdrop : List.drop (l.length + 1) (l ++ 46 :: dotted (m :: ls)) =
            dotted (m :: ls) := by
          rw [List.drop_append_eq_append_drop]
          simp
        have htake : strncpy (l ++ 46 :: dotted (m :: ls)) l.length = l := by
          simp [strncpy, List.take_append_eq_append_take]
        simp only [makequery_loop, hsome, hm16, hne, if_false, hmod, hdrop, htake]
        rw [ih m f ((dlen + 65536 - (l.length + 1) % 65536) % 65536) (out ++ [l.length] ++ l)
          (hls m (List.mem_cons_self m ls))
          (fun x hx => hls x (List.mem_cons_of_mem m hx)) (by omega) (by omega)]
        rw [leading_components_cons l (m :: ls) hemp]
        simp [encode_labels]

/-- The bytes that `mdns_makequery` writes for a dotted name of valid
components, empty ones allowed. -/
theorem mdns_makequery_components (cs : List (List Nat))
    (hv : ∀ l ∈ cs, valid_component l) :
    (mdns_makequery (dotted cs)).2 =
      [0, 0, 0, 0, 0, 1, 0, 0, 0, 0, 0, 0] ++ encode_labels (leading_components cs) ++
        [0, 1, 0x80, 1] := by
  have hc : cstr (dotted cs) = dotted cs :=
    cstr_eq_self _ (dotted_component_ne_zero cs hv)
  simp only [mdns_makequery, hc]
  cases cs with
  | nil =>
    simp [dotted, makequery_loop, strchr, encode_labels, query_header, put16,
      leading_components]
  | cons l ls =>
    rw [makequery_loop_components ls l _ _ query_header (hv l (List.mem_cons_self l ls))
      (fun x hx => hv x (List.mem_cons_of_mem l hx)) (by omega) rfl]
    simp [query_header, put16]

theorem dotted_append_empty (labels : List (List Nat)) (hne : labels ≠ []) :
    dotted (labels ++ [[]]) = dotted labels ++ [46] := by
  induction labels with
  | nil => exact absurd rfl hne
  | cons l ls ih =>
    cases ls with
    | nil => simp [dotted]
    | cons m ls =>
      have := ih (List.cons_ne_nil m ls)
      simp only [List.cons_append] at this ⊢
      rw [dotted_cons_cons, dotted_cons_cons, this]
      simp

theorem leading_components_append_empty (labels : List (List Nat))
    (hv : ∀ l ∈ labels, valid_label l) : leading_components (labels ++ [[]]) = labels := by
  induction labels with
  | nil => simp [leading_components, List.takeWhile]
  | cons l ls ih =>
    have hl : l ≠ [] := by
      intro h
      have := (hv l (List.mem_cons_self l ls)).1
      rw [h] at this
      simp at this
    rw [List.cons_append, leading_components_cons l _ hl,
      ih (fun x hx => hv x (List.mem_cons_of_mem l hx))]

theorem valid_component_of_label (l : List Nat) (h : valid_label l) : valid_component l :=
  ⟨h.2.1, h.2.2⟩

theorem counted_step_fst (cfg : Config) (p : Session × Nat) (e : Event) :
    (counted_step cfg p e).1 = step cfg p.1 e := by
  cases e <;> rfl

theorem counted_run_fst (cfg : Config) :
    ∀ (es : List Event) (p : Session × Nat),
      (es.foldl (counted_step cfg) p).1 = run cfg p.1 es := by
  intro es
  induction es with
  | nil => intro p; rfl
  | cons e es ih =>
    intro p
    simp only [List.foldl_cons, run]
    rw [ih, counted_step_fst]
    rfl

/-- While the session waits, the tick counter is the count of ticks since
the last `sendto`, reduced to 32 bits: one step keeps this. -/
theorem counted_step_inv (cfg : Config) (p : Session × Nat) (e : Event)
    (h : p.1.ret = none → p.1.mdns_1s_tick = p.2 % 4294967296) :
    (counted_step cfg p e).1.ret = none →
      (counted_step cfg p e).1.mdns_1s_tick = (counted_step cfg p e).2 % 4294967296 := by
  cases e with
  | tick =>
    intro hret
    have hr : p.1.ret = none := by simpa [counted_step, step] using hret
    have := h hr
    simp only [counted_step, step]
    omega
  | poll rsr dgram =>
    intro hret
    cases hr : p.1.ret with
    | some v =>
      simp [counted_step, step, hr] at hret
    | none =>
      have ht := h hr
      simp only [counted_step, step, hr, MDNS_run_poll, check_MDNS_timeout] at hret ⊢
      by_cases hrx : rsr % 65536 > 0
      · simp [hrx] at hret
      · simp only [hrx, if_false] at hret ⊢
        by_cases hw : p.1.mdns_1s_tick ≥ cfg.MDNS_WAIT_TIME
        · simp only [hw, if_true] at hret ⊢
          by_cases hm : p.1.retry_count ≥ cfg.MAX_MDNS_RETRY
          · simp [hm] at hret
          · simp [hm, sends, List.filter_append, Call.isSend]
        · simp only [hw, if_false]
          simp [sends]
          exact ht

theorem counted_run_inv (cfg : Config) :
    ∀ (es : List Event) (p : Session × Nat),
      (p.1.ret = none → p.1.mdns_1s_tick = p.2 % 4294967296) →
      (es.foldl (counted_step cfg) p).1.ret = none →
      (es.foldl (counted_step cfg) p).1.mdns_1s_tick =
        (es.foldl (counted_step cfg) p).2 % 4294967296 := by
  intro es
  induction es with
  | nil => intro p h; exact h
  | cons e es ih =>
    intro p h
    simp only [List.foldl_cons]
    exact ih _ (counted_step_inv cfg p e h)

/-- C15. In every execution of the session from its first send on (tick
counter zero), whatever the interleaving of ticks and passes of the loop,
a timeout check of the waiting session that does not return 1, that is a
resend (0) or a timeout (-1), happens only when at least `MDNS_WAIT_TIME`
ticks have been counted since the previous `sendto`, and so does every
pass of the loop that sends; a check made with fewer ticks returns 1 and
changes neither the tick counter nor the retry counter. -/
theorem resend_only_after_wait (cfg : Config) (s0 : Session) (es : List Event)
    (h0 : s0.mdns_1s_tick = 0) (hwait : (run cfg s0 es).ret = none) :
    ((check_MDNS_timeout cfg.MDNS_WAIT_TIME cfg.MAX_MDNS_RETRY
          (run cfg s0 es).mdns_1s_tick (run cfg s0 es).retry_count).1 ≠ 1 →
        cfg.MDNS_WAIT_TIME ≤ ticks_since_send cfg s0 es) ∧
      (∀ (rsr : Nat) (dgram : List Nat),
        sends (step cfg (run cfg s0 es) (Event.poll rsr dgram)) ≠ sends (run cfg s0 es) →
        cfg.MDNS_WAIT_TIME ≤ ticks_since_send cfg s0 es) ∧
      (ticks_since_send cfg s0 es < cfg.MDNS_WAIT_TIME →
        check_MDNS_timeout cfg.MDNS_WAIT_TIME cfg.MAX_MDNS_RETRY
            (run cfg s0 es).mdns_1s_tick (run cfg s0 es).retry_count =
          (1, (run cfg s0 es).mdns_1s_tick, (run cfg s0 es).retry_count)) := by
  have hfst := counted_run_fst cfg es (s0, 0)
  simp only at hfst
  have hinv := counted_run_inv cfg es (s0, 0) (fun _ => by simp [h0]) (by rw [hfst]; exact hwait)
  rw [hfst] at hinv
  have hle : (run cfg s0 es).mdns_1s_tick ≤ ticks_since_send cfg s0 es := by
    unfold ticks_since_send
    rw [hinv]
    exact Nat.mod_le _ _
  have key : (check_MDNS_timeout cfg.MDNS_WAIT_TIME cfg.MAX_MDNS_RETRY
        (run cfg s0 es).mdns_1s_tick (run cfg s0 es).retry_count).1 ≠ 1 →
      cfg.MDNS_WAIT_TIME ≤ ticks_since_send cfg s0 es := by
    intro hc
    by_cases hw : (run cfg s0 es).mdns_1s_tick ≥ cfg.MDNS_WAIT_TIME
    · omega
    · simp [check_MDNS_timeout, hw] at hc
  refine ⟨key, ?_, ?_⟩
  · intro rsr dgram hs
    apply key
    intro hc
    apply hs
    simp only [step, hwait, MDNS_run_poll]
    by_cases hrx : rsr % 65536 > 0
    · simp [hrx, sends, List.filter_append, Call.isSend]
    · simp [hrx, hc, sends]
  · intro hlt
    have hw : ¬ (run cfg s0 es).mdns_1s_tick ≥ cfg.MDNS_WAIT_TIME := by omega
    simp [check_MDNS_timeout, hw]

/-- Witness for C15: the session for `local` (one tick of wait, one retry)
after one tick, and freshly started. -/
theorem resend_only_after_wait_witness :
    (session_local.mdns_1s_tick = 0 ∧ (run cfg_small session_local [Event.tick]).ret = none) ∧
      ticks_since_send cfg_small session_local [Event.tick] = 1 ∧
      ((check_MDNS_timeout cfg_small.MDNS_WAIT_TIME cfg_small.MAX_MDNS_RETRY
            (run cfg_small session_local [Event.tick]).mdns_1s_tick
            (run cfg_small session_local [Event.tick]).retry_count).1 ≠ 1 →
          cfg_small.MDNS_WAIT_TIME ≤ ticks_since_send cfg_small session_local [Event.tick]) ∧
      (ticks_since_send cfg_small session_local [] < cfg_small.MDNS_WAIT_TIME ∧
        check_MDNS_timeout cfg_small.MDNS_WAIT_TIME cfg_small.MAX_MDNS_RETRY
            (run cfg_small session_local []).mdns_1s_tick
            (run cfg_small session_local []).retry_count =
          (1, (run cfg_small session_local []).mdns_1s_tick,
            (run cfg_small session_local []).retry_count)) :=
  ⟨⟨by decide, by decide⟩, by decide,
    (resend_only_after_wait cfg_small session_local [Event.tick] (by decide) (by decide)).1,
    by decide,
    (resend_only_after_wait cfg_small session_local [] (by decide) (by decide)).2.2
      (by decide)⟩

/-- What `MDNS_run` has done when it reaches its loop: the retry counter is
zero and `sendto` has been called once. -/
theorem start_waiting (cfg : Config) (name : List Nat) (mem : Nat → Nat) (ip : List Nat)
    (socket_ret send_ret : Int)
    (h : (MDNS_run_start cfg name mem ip socket_ret send_ret).ret = none) :
    (MDNS_run_start cfg name mem ip socket_ret send_ret).retry_count = 0 ∧
      (MDNS_run_start cfg name mem ip socket_ret send_ret).mdns_1s_tick = 0 ∧
      sends (MDNS_run_start cfg name mem ip socket_ret send_ret) = 1 := by
  unfold MDNS_run_start at h ⊢
  by_cases h1 : socket_ret ≠ (cfg.MDNS_SOCKET : Int)
  · rw [if_pos h1] at h
    exact absurd h (by simp)
  · rw [if_neg h1] at h ⊢
    by_cases h2 : send_ret ≠ ((((mdns_makequery name).1 % 65536).toNat : Nat) : Int)
    · rw [if_pos h2] at h
      exact absurd h (by simp)
    · rw [if_neg h2]
      exact ⟨rfl, rfl, rfl⟩

/-- One step keeps the send count of the retry machine: at most
`MAX_MDNS_RETRY + 1` calls of `sendto`, and one more than the retry
counter while the session waits. -/
theorem step_send_count (cfg : Config) (s : Session) (e : Event)
    (hM : cfg.MAX_MDNS_RETRY ≤ 255)
    (h1 : sends s ≤ cfg.MAX_MDNS_RETRY + 1)
    (h2 : s.ret = none → s.retry_count ≤ cfg.MAX_MDNS_RETRY ∧ sends s = s.retry_count + 1) :
    sends (step cfg s e) ≤ cfg.MAX_MDNS_RETRY + 1 ∧
      ((step cfg s e).ret = none →
        (step cfg s e).retry_count ≤ cfg.MAX_MDNS_RETRY ∧
          sends (step cfg s e) = (step cfg s e).retry_count + 1) := by
  cases e with
  | tick => exact ⟨h1, fun hr => h2 hr⟩
  | poll rsr dgram =>
    cases hr : s.ret with
    | some v =>
      simp only [step, hr]
      exact ⟨h1, fun h => absurd h (by simp)⟩
    | none =>
      obtain ⟨ha, hb⟩ := h2 hr
      simp only [step, hr, MDNS_run_poll, check_MDNS_timeout]
      by_cases hrx : rsr % 65536 > 0
      · simp [hrx, sends, List.filter_append, Call.isSend]
        exact h1
      · simp only [hrx, if_false]
        by_cases hw : s.mdns_1s_tick ≥ cfg.MDNS_WAIT_TIME
        · simp only [hw, if_true]
          by_cases hm : s.retry_count ≥ cfg.MAX_MDNS_RETRY
          · simp [hm, sends, List.filter_append, Call.isSend]
            exact h1
          · have hmod : (s.retry_count + 1) % 256 = s.retry_count + 1 :=
              Nat.mod_eq_of_lt (by omega)
            have hs : sends s = s.retry_count + 1 := hb
            simp only [sends] at hs
            simp [hm, sends, List.filter_append, Call.isSend, hmod, hs]
            omega
        · simp [hw]
          exact ⟨h1, ha, hb⟩

end MDNS
